import Mathlib

deriving instance DecidableEq for Except

/-!
Verification of the layout engine of the vexes library
(`src/include/vexes.hpp`, namespace `vex`, class `Layouts` and the
`Rect<int>` value type it consumes).

The C++ code is shallowly embedded:

* `Rect<int>` (`IntRect`) becomes a structure of four `Int` fields with the
  corner accessors translated literally.
* C++ `int` arithmetic is modelled by `Int`: none of the layout
  computations can overflow 32 bits for inputs that themselves fit.
* The expression `(int)(((float) num / base) * fullWidth)` appears in two
  models.  `calculateHBoxes`/`calculateVBoxes` idealize it as exact
  rational arithmetic truncated toward zero,
  `Int.tdiv (num * fullWidth) base`; the structural facts proved below
  (counts, adjacency, clamp behaviour, containment) depend only on the
  shape of the loop and on the sign of the proportional value, which the
  idealization preserves.  `calculateHBoxesF` instead computes the width
  bit-accurately in binary32 (`floatCols`: round-to-nearest-even at the
  int-to-float conversions, the division and the multiplication, then
  truncation toward zero), because the float32 rounding can drift from
  both the exact truncation and the spec's floor — see
  `claim_C1_counterexample`, where the drift is visible at
  fullWidth 33554435.
* Exceptions become `Except LayoutErr`: `InvalidRatioException` is
  `LayoutErr.invalidRatio` (with its message), and the exceptions that
  `std::stoi` may throw are `LayoutErr.outOfRange` (`std::out_of_range`,
  value outside `int` range) and `LayoutErr.invalidArgument`
  (`std::invalid_argument`, no conversion possible).
* `COLS` and `LINES` (the ncurses terminal dimensions read when no
  bounding rectangle is passed) become explicit parameters.

Strings are processed as their lists of characters; the splitting
performed by `std::getline(ss, token, ':')` is modelled by `splitTokens`.
-/

namespace Vexes

/-- `Rect<int>` from vexes.hpp: origin `(x, y)` and dimensions `(w, h)`. -/
structure IntRect where
  x : Int
  y : Int
  w : Int
  h : Int
deriving Repr, DecidableEq, Inhabited

/-- Upper-left corner accessor `ul()`. -/
def IntRect.ul (r : IntRect) : Int × Int := (r.x, r.y)

/-- Upper-right corner accessor `ur()`. -/
def IntRect.ur (r : IntRect) : Int × Int := (r.x + r.w, r.y)

/-- Lower-left corner accessor `ll()`. -/
def IntRect.ll (r : IntRect) : Int × Int := (r.x, r.y + r.h)

/-- Lower-right corner accessor `lr()`. -/
def IntRect.lr (r : IntRect) : Int × Int := (r.x + r.w, r.y + r.h)

/-- The errors that can escape the layout subsystem: the library's own
`InvalidRatioException` (with its message) and the two exceptions that
`std::stoi` can throw. -/
inductive LayoutErr where
  | invalidRatio (msg : String)
  | outOfRange
  | invalidArgument
deriving Repr, DecidableEq

/-- C `isdigit` on the ASCII range. -/
def isDigitChar (c : Char) : Bool := decide (48 ≤ c.toNat ∧ c.toNat ≤ 57)

/-- C `isspace`: space, tab, newline, vertical tab, form feed, carriage
return: the characters skipped by `strtol` before a conversion. -/
def isSpaceChar (c : Char) : Bool :=
  decide (c = ' ' ∨ c = '\t' ∨ c = '\n' ∨ c = '\x0b' ∨ c = '\x0c' ∨ c = '\r')

/-- The characters left unconsumed by `strtol(s, &p, 10)`: optional
whitespace, an optional sign, then digits.  When no digit is consumed no
conversion takes place and `p` is reset to the start of the string. -/
def strtolRest (l : List Char) : List Char :=
  let t1 := l.dropWhile isSpaceChar
  let t2 := match t1 with
    | c :: r => if c = '-' ∨ c = '+' then r else t1
    | [] => t1
  if (t2.takeWhile isDigitChar).isEmpty then l else t2.dropWhile isDigitChar

/-- `Layouts::isInteger`: the first character must be a digit or a sign,
and `strtol` must consume the whole string (`*p == 0`). -/
def isInteger (l : List Char) : Bool :=
  match l with
  | [] => false
  | c :: _ =>
    if ¬ (isDigitChar c ∨ c = '-' ∨ c = '+') then false
    else (strtolRest l).isEmpty

/-- Numeric value of a digit string, most significant first. -/
def digitsVal (ds : List Char) : Int :=
  ds.foldl (fun a c => a * 10 + ((c.toNat : Int) - 48)) 0

/-- The conversion performed inside `std::stoi` (via `strtol`): skip
whitespace, note an optional sign, then convert the run of digits;
`none` when no digit follows (no conversion). -/
def stoiParse (l : List Char) : Option Int :=
  let t1 := l.dropWhile isSpaceChar
  let neg : Bool := match t1 with
    | c :: _ => c = '-'
    | [] => false
  let t2 := match t1 with
    | c :: r => if c = '-' ∨ c = '+' then r else t1
    | [] => t1
  let ds := t2.takeWhile isDigitChar
  if ds.isEmpty then none
  else some (if neg then - digitsVal ds else digitsVal ds)

/-- `INT_MAX` of the 32-bit `int` used by `std::stoi`: `2^31 - 1`. -/
def INT_MAX : Int := 2147483647

/-- `INT_MIN` of the 32-bit `int` used by `std::stoi`: `-2^31`. -/
def INT_MIN : Int := -2147483648

/-- `std::stoi`: `std::invalid_argument` when no conversion can be
performed, `std::out_of_range` when the converted value does not fit in
`int`, otherwise the value. -/
def stoi (l : List Char) : Except LayoutErr Int :=
  match stoiParse l with
  | none => .error .invalidArgument
  | some v => if v < INT_MIN ∨ INT_MAX < v then .error .outOfRange else .ok v

/-- Split a character list at every colon; `[[]]` for the empty list, and
a trailing colon produces a trailing empty part (the semantics of
`String::splitOn`). -/
def splitOnColon : List Char → List (List Char)
  | [] => [[]]
  | c :: cs =>
    let rest := splitOnColon cs
    if c = ':' then [] :: rest
    else
      match rest with
      | r :: rs => (c :: r) :: rs
      | [] => [[c]]

/-- The tokens produced by `while (std::getline(ss, token, ':'))`: like
`splitOnColon`, except that reading the empty string yields no token at
all and a trailing empty part (from a final colon) is not yielded. -/
def splitTokens (s : String) : List (List Char) :=
  match s.data with
  | [] => []
  | l =>
    let parts := splitOnColon l
    if parts.getLastD [] = [] then parts.dropLast else parts

/-- Adjacent-colon test: the loop
`for i in 1..length: ratio[i] == ':' && ratio[i-1] == ':'`. -/
def hasDoubleColon (l : List Char) : Bool :=
  (l.zip l.tail).any fun p => p.1 = ':' ∧ p.2 = ':'

/-- The per-token checks of `Layouts::validateRatio`, in source order:
reject non-integers, then convert with `std::stoi` (whose exceptions
propagate), then reject zero. -/
def checkTokens : List (List Char) → Except LayoutErr Unit
  | [] => .ok ()
  | t :: ts =>
    if ¬ isInteger t then
      .error (.invalidRatio "Ratios can only contain valid integers.")
    else
      match stoi t with
      | .error e => .error e
      | .ok num =>
        if num = 0 then
          .error (.invalidRatio "Ratios cannot contain 0 as an integer.")
        else checkTokens ts

/-- `Layouts::validateRatio`, with the four checks in source order. -/
def validateRatio (ratio : String) : Except LayoutErr Unit :=
  if ¬ ratio.data.contains ':' then
    .error (.invalidRatio "Ratios must contain at least one colon.")
  else if ratio.data.headD ' ' = ':' ∨ ratio.data.getLastD ' ' = ':' then
    .error (.invalidRatio "Ratios cannot begin or end with a colon.")
  else if hasDoubleColon ratio.data then
    .error (.invalidRatio "Ratios can only be delimited by single colons.")
  else
    checkTokens (splitTokens ratio)

/-- `Layouts::extractNumsFromString`: split on colons and convert each
token with `std::stoi`, left to right. -/
def extractNumsFromString (ratio : String) : Except LayoutErr (List Int) :=
  (splitTokens ratio).mapM stoi

/-- Bounding width: the passed rectangle's `w`, or `COLS - 1`. -/
def boundW (dim : Option IntRect) (COLS : Int) : Int :=
  match dim with
  | some d => d.w
  | none => COLS - 1

/-- Bounding height: the passed rectangle's `h`, or `LINES - 1`. -/
def boundH (dim : Option IntRect) (LINES : Int) : Int :=
  match dim with
  | some d => d.h
  | none => LINES - 1

/-- Start x: the passed rectangle's `x`, or `0`. -/
def boundX (dim : Option IntRect) : Int :=
  match dim with
  | some d => d.x
  | none => 0

/-- Start y: the passed rectangle's `y`, or `0`. -/
def boundY (dim : Option IntRect) : Int :=
  match dim with
  | some d => d.y
  | none => 0

/-- Bounding width as `calculateVBoxes` computes it:
`dim->ur().x - dim->ul().x`, or `COLS - 1`. -/
def vBoundW (dim : Option IntRect) (COLS : Int) : Int :=
  match dim with
  | some d => (IntRect.ur d).1 - (IntRect.ul d).1
  | none => COLS - 1

/-- Bounding height as `calculateVBoxes` computes it:
`dim->lr().y - dim->ur().y`, or `LINES - 1`. -/
def vBoundH (dim : Option IntRect) (LINES : Int) : Int :=
  match dim with
  | some d => (IntRect.lr d).2 - (IntRect.ur d).2
  | none => LINES - 1

/-- One iteration of the `for (int num : nums)` loop of
`Layouts::calculateHBoxes`: the running state is `lastX` paired with the
boxes pushed so far.  The float32 width expression is idealized here as
exact rational truncation toward zero; `floatCols` below models it
bit-accurately, and the two can differ by one unit at large widths. -/
def hStep (base fw fh sy : Int) (st : Int × List IntRect) (num : Int) :
    Int × List IntRect :=
  let lastX := st.1
  let rows := fh
  let c0 := Int.tdiv (num * fw) base
  let columns := if lastX + 1 + c0 ≥ fw then fw - (lastX + 1) else c0
  (lastX + columns + 1, st.2 ++ [⟨lastX + 1, sy, columns, rows⟩])

/-- `Layouts::calculateHBoxes`. -/
def calculateHBoxes (nums : List Int) (dim : Option IntRect)
    (COLS LINES : Int) : List IntRect :=
  let base := nums.foldl (· + ·) 0
  let fw := boundW dim COLS
  let fh := boundH dim LINES
  let sx := boundX dim
  let sy := boundY dim
  (nums.foldl (hStep base fw fh sy) (sx - 1, [])).2

/-- One iteration of the loop of `Layouts::calculateVBoxes`, with the
float32 row expression idealized as exact rational truncation toward
zero, as in `hStep`. -/
def vStep (base fw fh sx : Int) (st : Int × List IntRect) (num : Int) :
    Int × List IntRect :=
  let lastY := st.1
  let r0 := Int.tdiv (num * fh) base
  let rows := if lastY + 1 + r0 ≥ fh then fh - (lastY + 1) else r0
  let columns := fw
  (lastY + rows + 1, st.2 ++ [⟨sx, lastY + 1, columns, rows⟩])

/-- `Layouts::calculateVBoxes`. -/
def calculateVBoxes (nums : List Int) (dim : Option IntRect)
    (COLS LINES : Int) : List IntRect :=
  let base := nums.foldl (· + ·) 0
  let fw := vBoundW dim COLS
  let fh := vBoundH dim LINES
  let sx := boundX dim
  let sy := boundY dim
  (nums.foldl (vStep base fw fh sx) (sy - 1, [])).2

/-- `Layouts::customHLayout`: validate (rethrowing `InvalidRatioException`
unchanged, all other exceptions propagating), extract the numbers, then
partition.  -/
def customHLayout (ratio : String) (dim : Option IntRect)
    (COLS LINES : Int) : Except LayoutErr (List IntRect) := do
  validateRatio ratio
  let nums ← extractNumsFromString ratio
  return calculateHBoxes nums dim COLS LINES

/-- `Layouts::customVLayout`. -/
def customVLayout (ratio : String) (dim : Option IntRect)
    (COLS LINES : Int) : Except LayoutErr (List IntRect) := do
  validateRatio ratio
  let nums ← extractNumsFromString ratio
  return calculateVBoxes nums dim COLS LINES

/-- `Layouts::HSplit`. -/
def HSplit (dim : Option IntRect) (COLS LINES : Int) :
    Except LayoutErr (List IntRect) :=
  customHLayout "1:1" dim COLS LINES

/-- `Layouts::HTwoThirdsLeft`. -/
def HTwoThirdsLeft (dim : Option IntRect) (COLS LINES : Int) :
    Except LayoutErr (List IntRect) :=
  customHLayout "2:1" dim COLS LINES

/-- `Layouts::HTwoThirdsRight`. -/
def HTwoThirdsRight (dim : Option IntRect) (COLS LINES : Int) :
    Except LayoutErr (List IntRect) :=
  customHLayout "1:2" dim COLS LINES

/-- `Layouts::HThirds`. -/
def HThirds (dim : Option IntRect) (COLS LINES : Int) :
    Except LayoutErr (List IntRect) :=
  customHLayout "1:1:1" dim COLS LINES

/-- `Layouts::VSplit`. -/
def VSplit (dim : Option IntRect) (COLS LINES : Int) :
    Except LayoutErr (List IntRect) :=
  customVLayout "1:1" dim COLS LINES

/-- `Layouts::VTwoThirdsAbove`. -/
def VTwoThirdsAbove (dim : Option IntRect) (COLS LINES : Int) :
    Except LayoutErr (List IntRect) :=
  customVLayout "2:1" dim COLS LINES

/-- `Layouts::VTwoThirdsBelow`. -/
def VTwoThirdsBelow (dim : Option IntRect) (COLS LINES : Int) :
    Except LayoutErr (List IntRect) :=
  customVLayout "1:2" dim COLS LINES

/-- `Layouts::VThirds`. -/
def VThirds (dim : Option IntRect) (COLS LINES : Int) :
    Except LayoutErr (List IntRect) :=
  customVLayout "1:1:1" dim COLS LINES

/-! ## Spec-side definitions

These follow the wording of the specification (`spec.md`), to be compared
with the definitions above, which follow the C++ source. -/

/-- Spec §4.3, the horizontal partitioning loop, with the width taken
verbatim from the spec's formula `columns = floor((w / base) * fullWidth)`:
the floor of the exact rational `(w / base) * fullWidth`, i.e.
`Int.fdiv (w * fullWidth) base`.  Steps 4c-4e are the clamp, the emitted
rectangle `(lastX + 1, startY, columns, rows)` and the advance of `lastX`
to the emitted rectangle's right edge `(lastX + 1) + columns`. -/
def specHGo (base fw fh sy : Int) : Int → List Int → List IntRect
  | _, [] => []
  | lastX, num :: ns =>
    let c0 := Int.fdiv (num * fw) base
    let c := if lastX + 1 + c0 ≥ fw then fw - (lastX + 1) else c0
    ⟨lastX + 1, sy, c, fh⟩ :: specHGo base fw fh sy (lastX + 1 + c) ns

/-- Spec §4.3 in full: `base` is the sum of the weights, the frame is the
supplied rectangle or the full-terminal default `(COLS - 1, LINES - 1, 0, 0)`,
and the cursor starts at `startX - 1`. -/
def specHBoxes (nums : List Int) (dim : Option IntRect)
    (COLS LINES : Int) : List IntRect :=
  specHGo nums.sum (boundW dim COLS) (boundH dim LINES) (boundY dim)
    (boundX dim - 1) nums

/-- Spec §4.4, the vertical mirror of `specHGo`. -/
def specVGo (base fw fh sx : Int) : Int → List Int → List IntRect
  | _, [] => []
  | lastY, num :: ns =>
    let r0 := Int.fdiv (num * fh) base
    let r := if lastY + 1 + r0 ≥ fh then fh - (lastY + 1) else r0
    ⟨sx, lastY + 1, fw, r⟩ :: specVGo base fw fh sx (lastY + 1 + r) ns

/-- Spec §4.4 in full. -/
def specVBoxes (nums : List Int) (dim : Option IntRect)
    (COLS LINES : Int) : List IntRect :=
  specVGo nums.sum (boundW dim COLS) (boundH dim LINES) (boundX dim)
    (boundY dim - 1) nums

/-- The grammar's notion of an integer token (spec §6: `INTEGER`,
optionally signed): an optional sign followed by at least one digit. -/
def specIsInt (t : List Char) : Bool :=
  match t with
  | [] => false
  | c :: r =>
    if c = '-' ∨ c = '+' then ¬ r.isEmpty ∧ r.all isDigitChar
    else (c :: r).all isDigitChar

/-- The numeric value of a token under the grammar's reading. -/
def specTokVal (t : List Char) : Int :=
  match t with
  | [] => 0
  | c :: r =>
    if c = '-' then - digitsVal r
    else if c = '+' then digitsVal r
    else digitsVal (c :: r)

/-- Spec §4.1 as a predicate: the validator fails exactly when the string
contains no colon, begins or ends with a colon, has two adjacent colons,
has a colon-delimited token that does not parse as an integer, or has a
token equal to zero. -/
def specRejectsP (s : String) : Prop :=
  ¬ s.data.contains ':' = true ∨
    s.data.head? = some ':' ∨
    s.data.getLast? = some ':' ∨
    hasDoubleColon s.data = true ∨
    (∃ t ∈ splitOnColon s.data, ¬ specIsInt t = true) ∨
    (∃ t ∈ splitOnColon s.data, specIsInt t = true ∧ specTokVal t = 0)

instance specRejectsP_dec (s : String) : Decidable (specRejectsP s) := by
  unfold specRejectsP
  exact inferInstance

/-- A token's `std::stoi` conversion, when it exists, fits in `int`. -/
def fitsInt (t : List Char) : Bool :=
  match stoiParse t with
  | none => true
  | some v => decide (INT_MIN ≤ v ∧ v ≤ INT_MAX)

/-- All tokens of the string fit in `int` (no `std::out_of_range`). -/
def fitsAll (s : String) : Bool := (splitTokens s).all fitsInt

/-- Whether a result is an `InvalidRatioException` escape. -/
def isIRb {α : Type} : Except LayoutErr α → Bool
  | .error (.invalidRatio _) => true
  | _ => false

/-! ## Recursive presentations of the partitioning loops

`hRec` and `vRec` compute exactly what the `foldl` in `calculateHBoxes` /
`calculateVBoxes` computes (proved below); structural recursion is more
convenient for induction. -/

/-- Recursive form of the `calculateHBoxes` loop. -/
def hRec (base fw fh sy : Int) : Int → List Int → List IntRect
  | _, [] => []
  | lastX, num :: ns =>
    let c0 := Int.tdiv (num * fw) base
    let c := if lastX + 1 + c0 ≥ fw then fw - (lastX + 1) else c0
    ⟨lastX + 1, sy, c, fh⟩ :: hRec base fw fh sy (lastX + c + 1) ns

/-- Recursive form of the `calculateVBoxes` loop. -/
def vRec (base fw fh sx : Int) : Int → List Int → List IntRect
  | _, [] => []
  | lastY, num :: ns =>
    let r0 := Int.tdiv (num * fh) base
    let r := if lastY + 1 + r0 ≥ fh then fh - (lastY + 1) else r0
    ⟨sx, lastY + 1, fw, r⟩ :: vRec base fw fh sx (lastY + r + 1) ns

/-! ## Bit-accurate model of the float32 width computation

The C++ width is `(int)(((float) num / base) * fullWidth)`: `num`, `base`
and `fullWidth` are converted to single-precision floats, the division and
the multiplication each round once to nearest (ties to even), and the cast
truncates toward zero.  The functions below compute this exactly over the
integers, representing a binary32 value as a signed significand times a
power of two (`Int × Int`, value `m * 2^e` with `|m| ∈ [2^23, 2^24]` or
`m = 0`).  Exponents are unbounded: no overflow or subnormals arise from
`int` inputs (all magnitudes stay far inside the normal binary32 range,
where the step budget 300 of the normalization loop always suffices).
Division by zero — reachable only with a zero weight sum, e.g. ratio
"-1:1", where the C++ float yields an infinity and the `(int)` cast is
undefined — is mapped to zero. -/

/-- Round the fraction `a / b` (with `b ≠ 0`) to the nearest natural
number, ties to even. -/
def rnInt (a b : ℕ) : ℕ :=
  let q := a / b
  let r := a % b
  if 2 * r < b then q
  else if b < 2 * r then q + 1
  else if q % 2 = 0 then q else q + 1

/-- Normalize the positive fraction `a / b` into `[2^23, 2^24)` by
doubling one side, tracking the exponent, then round the significand to
the nearest integer (ties to even). -/
def f32DivAux : ℕ → ℕ → ℕ → Int → ℕ × Int
  | 0, a, b, e => (rnInt a b, e)
  | fuel + 1, a, b, e =>
    if a < 2 ^ 23 * b then f32DivAux fuel (2 * a) b (e - 1)
    else if 2 ^ 24 * b ≤ a then f32DivAux fuel a (2 * b) (e + 1)
    else (rnInt a b, e)

/-- The binary32 value nearest to the positive fraction `a / b`. -/
def roundQ32 (a b : ℕ) : ℕ × Int := f32DivAux 300 a b 0

/-- The binary32 value nearest to the fraction `num / den` (`den ≠ 0`),
as a signed significand and exponent. -/
def f32OfRat (num : Int) (den : ℕ) : Int × Int :=
  if num = 0 then (0, 0)
  else if 0 < num then
    let p := roundQ32 num.toNat den
    ((p.1 : Int), p.2)
  else
    let p := roundQ32 (- num).toNat den
    (- (p.1 : Int), p.2)

/-- The C conversion `(float) n` of an `int`. -/
def f32OfInt (n : Int) : Int × Int := f32OfRat n 1

/-- Binary32 division with a single round-to-nearest-even: the exact
quotient is `(x.1 / y.1) * 2 ^ (x.2 - y.2)`, and scaling by a power of
two is exact, so only the significand quotient is rounded. -/
def f32Div (x y : Int × Int) : Int × Int :=
  if y.1 = 0 then (0, 0)
  else
    let m := f32OfRat (if 0 ≤ y.1 then x.1 else - x.1) y.1.natAbs
    (m.1, m.2 + (x.2 - y.2))

/-- Binary32 multiplication with a single round-to-nearest-even of the
exact significand product. -/
def f32Mul (x y : Int × Int) : Int × Int :=
  let m := f32OfRat (x.1 * y.1) 1
  (m.1, m.2 + x.2 + y.2)

/-- The C cast `(int)` of a binary32 value: truncation toward zero. -/
def f32TruncToInt (x : Int × Int) : Int :=
  if 0 ≤ x.2 then x.1 * 2 ^ x.2.toNat
  else Int.tdiv x.1 (2 ^ (- x.2).toNat)

/-- The program's width `(int)(((float) num / base) * fullWidth)`,
computed bit-accurately in binary32. -/
def floatCols (num base fw : Int) : Int :=
  f32TruncToInt (f32Mul (f32Div (f32OfInt num) (f32OfInt base)) (f32OfInt fw))

/-- One iteration of the `calculateHBoxes` loop with the width computed
by the bit-accurate float32 model. -/
def hStepF (base fw fh sy : Int) (st : Int × List IntRect) (num : Int) :
    Int × List IntRect :=
  let lastX := st.1
  let rows := fh
  let c0 := floatCols num base fw
  let columns := if lastX + 1 + c0 ≥ fw then fw - (lastX + 1) else c0
  (lastX + columns + 1, st.2 ++ [⟨lastX + 1, sy, columns, rows⟩])

/-- `Layouts::calculateHBoxes` with the width computed by the
bit-accurate float32 model. -/
def calculateHBoxesF (nums : List Int) (dim : Option IntRect)
    (COLS LINES : Int) : List IntRect :=
  let base := nums.foldl (· + ·) 0
  let fw := boundW dim COLS
  let fh := boundH dim LINES
  let sx := boundX dim
  let sy := boundY dim
  (nums.foldl (hStepF base fw fh sy) (sx - 1, [])).2

/-- Spec §4.3 with the proportional width taken as the program's float32
computation in place of the exact floor (steps 4a and 4c-4e and the frame
handling are unchanged). -/
def specHGoF (base fw fh sy : Int) : Int → List Int → List IntRect
  | _, [] => []
  | lastX, num :: ns =>
    let c0 := floatCols num base fw
    let c := if lastX + 1 + c0 ≥ fw then fw - (lastX + 1) else c0
    ⟨lastX + 1, sy, c, fh⟩ :: specHGoF base fw fh sy (lastX + 1 + c) ns

/-- Spec §4.3 in full, with the float32 width: `base` is the sum of the
weights, the frame is the supplied rectangle or the full-terminal default
`(COLS - 1, LINES - 1, 0, 0)`, the cursor starts at `startX - 1`. -/
def specHBoxesF (nums : List Int) (dim : Option IntRect)
    (COLS LINES : Int) : List IntRect :=
  specHGoF nums.sum (boundW dim COLS) (boundH dim LINES) (boundY dim)
    (boundX dim - 1) nums

/-! ## Character and token lemmas -/

lemma digit_not_space {c : Char} (h : isDigitChar c = true) :
    isSpaceChar c = false := by
  simp only [isDigitChar, decide_eq_true_eq] at h
  simp only [isSpaceChar, decide_eq_false_iff_not]
  rintro (rfl | rfl | rfl | rfl | rfl | rfl) <;> exact absurd h (by decide)

lemma digit_not_sign {c : Char} (h : isDigitChar c = true) :
    ¬ (c = '-' ∨ c = '+') := by
  simp only [isDigitChar, decide_eq_true_eq] at h
  rintro (rfl | rfl) <;> exact absurd h (by decide)

lemma dropWhile_isEmpty_eq_all (p : Char → Bool) (r : List Char) :
    (List.dropWhile p r).isEmpty = r.all p := by
  rw [Bool.eq_iff_iff]
  simp [List.isEmpty_iff, List.dropWhile_eq_nil_iff, List.all_eq_true]

lemma takeWhile_all_eq {p : Char → Bool} {l : List Char} (h : l.all p = true) :
    l.takeWhile p = l := by
  induction l with
  | nil => rfl
  | cons x xs ih =>
    simp only [List.all_cons, Bool.and_eq_true] at h
    rw [List.takeWhile_cons_of_pos h.1, ih h.2]

/-- The code's `isInteger` (first-character guard plus a full `strtol`
consumption check) accepts exactly the grammar's integers. -/
lemma isInteger_eq_specIsInt (t : List Char) : isInteger t = specIsInt t := by
  cases t with
  | nil => rfl
  | cons c r =>
    by_cases hd : isDigitChar c = true
    · have hs : isSpaceChar c = false := digit_not_space hd
      have hn : ¬ (c = '-' ∨ c = '+') := digit_not_sign hd
      simp only [isInteger, specIsInt, strtolRest]
      rw [if_neg (by simp [hd])]
      rw [if_neg hn]
      simp only [List.dropWhile_cons, hs]
      simp only [Bool.false_eq_true, if_false]
      simp only [Bool.false_eq_true, if_false, if_neg hn]
      rw [List.takeWhile_cons_of_pos hd, List.dropWhile_cons_of_pos hd]
      simp only [List.isEmpty_cons, Bool.false_eq_true, if_false,
        List.all_cons, hd, Bool.true_and]
      exact dropWhile_isEmpty_eq_all _ _
    · by_cases hsg : c = '-' ∨ c = '+'
      · have hs : isSpaceChar c = false := by
          rcases hsg with rfl | rfl <;> decide
        simp only [isInteger, specIsInt, strtolRest]
        rw [if_neg (by simp [hsg])]
        simp only [List.dropWhile_cons, hs, Bool.false_eq_true, if_false,
          if_pos hsg]
        by_cases he : (List.takeWhile isDigitChar r).isEmpty = true
        · rw [if_pos he]
          rcases r with _ | ⟨d, ds⟩
          · simp
          · have hdd : isDigitChar d = false := by
              by_contra hcon
              simp only [Bool.not_eq_false] at hcon
              rw [List.takeWhile_cons_of_pos hcon] at he
              simp at he
            simp [List.all_cons, hdd]
        · rw [if_neg he]
          rw [dropWhile_isEmpty_eq_all]
          rcases r with _ | ⟨d, ds⟩
          · simp at he
          · have hdd : isDigitChar d = true := by
              by_contra hcon
              simp only [Bool.not_eq_true] at hcon
              rw [List.takeWhile_cons_of_neg (by simp [hcon])] at he
              simp at he
            rw [Bool.eq_iff_iff]
            simp
      · simp only [isInteger, specIsInt]
        rw [if_pos (by simp [hd, hsg])]
        rw [if_neg hsg]
        rw [List.all_cons]
        simp only [Bool.not_eq_true] at hd
        simp [hd]

/-- On grammar-integers, the `strtol` conversion inside `std::stoi`
produces the grammar's value. -/
lemma stoiParse_of_specIsInt {t : List Char} (h : specIsInt t = true) :
    stoiParse t = some (specTokVal t) := by
  cases t with
  | nil => simp [specIsInt] at h
  | cons c r =>
    by_cases hsg : c = '-' ∨ c = '+'
    · simp only [specIsInt, if_pos hsg, decide_eq_true_eq] at h
      obtain ⟨hne, hall⟩ := h
      simp only [Bool.not_eq_true] at hne
      have hrt := takeWhile_all_eq hall
      rcases hsg with rfl | rfl
      · simp [stoiParse, specTokVal, isSpaceChar, hrt, hne]
      · simp [stoiParse, specTokVal, isSpaceChar, hrt, hne]
    · simp only [specIsInt, if_neg hsg] at h
      have hd : isDigitChar c = true := by
        simp only [List.all_cons, Bool.and_eq_true] at h
        exact h.1
      simp only [stoiParse, specTokVal, List.dropWhile_cons, digit_not_space hd]
      simp only [Bool.false_eq_true, if_false, if_neg hsg]
      rw [takeWhile_all_eq h]
      have hcm : (c = '-') = False := by
        simp only [eq_iff_iff, iff_false]
        intro hc; exact digit_not_sign hd (Or.inl hc)
      have hcp : (c = '+') = False := by
        simp only [eq_iff_iff, iff_false]
        intro hc; exact digit_not_sign hd (Or.inr hc)
      simp [hcm, hcp]

lemma stoi_eq_of_specIsInt {t : List Char} (h : specIsInt t = true) :
    stoi t = if specTokVal t < INT_MIN ∨ INT_MAX < specTokVal t
      then .error .outOfRange else .ok (specTokVal t) := by
  unfold stoi
  rw [stoiParse_of_specIsInt h]

lemma stoi_ok {t : List Char} (h : specIsInt t = true)
    (hf : fitsInt t = true) : stoi t = .ok (specTokVal t) := by
  unfold fitsInt at hf
  rw [stoiParse_of_specIsInt h] at hf
  simp only [decide_eq_true_eq, INT_MIN, INT_MAX] at hf
  rw [stoi_eq_of_specIsInt h, if_neg (by simp only [INT_MIN, INT_MAX]; omega)]

lemma stoi_oor {t : List Char} (h : specIsInt t = true)
    (hf : fitsInt t = false) : stoi t = .error .outOfRange := by
  unfold fitsInt at hf
  rw [stoiParse_of_specIsInt h] at hf
  simp only [decide_eq_false_iff_not, not_and_or, not_le, INT_MIN, INT_MAX] at hf
  rw [stoi_eq_of_specIsInt h, if_pos (by simp only [INT_MIN, INT_MAX]; omega)]

lemma stoi_err {t : List Char} {e : LayoutErr} (h : stoi t = .error e) :
    e = .outOfRange ∨ e = .invalidArgument := by
  cases hp : stoiParse t with
  | none =>
    have heq : stoi t = .error .invalidArgument := by
      unfold stoi; rw [hp]
    rw [heq] at h
    injection h with h1
    exact Or.inr h1.symm
  | some v =>
    have heq : stoi t = if v < INT_MIN ∨ INT_MAX < v
        then .error .outOfRange else .ok v := by
      unfold stoi; rw [hp]
    rw [heq] at h
    by_cases hr : v < INT_MIN ∨ INT_MAX < v
    · rw [if_pos hr] at h
      injection h with h1
      exact Or.inl h1.symm
    · rw [if_neg hr] at h
      exact absurd h (by simp)

lemma isIRb_true_iff {α : Type} (x : Except LayoutErr α) :
    isIRb x = true ↔ ∃ m, x = .error (.invalidRatio m) := by
  cases x with
  | ok v => simp [isIRb]
  | error e =>
    cases e with
    | invalidRatio m => simp [isIRb]
    | outOfRange => simp [isIRb]
    | invalidArgument => simp [isIRb]

/-! ## Splitting lemmas -/

lemma splitOnColon_ne_nil (l : List Char) : splitOnColon l ≠ [] := by
  cases l with
  | nil => simp [splitOnColon]
  | cons c cs =>
    unfold splitOnColon
    by_cases hc : c = ':'
    · simp [hc]
    · rw [if_neg hc]
      cases splitOnColon cs with
      | nil => simp
      | cons r rs => simp

lemma splitOnColon_len2 {l : List Char} (h : ':' ∈ l) :
    2 ≤ (splitOnColon l).length := by
  induction l with
  | nil => simp at h
  | cons c cs ih =>
    unfold splitOnColon
    by_cases hc : c = ':'
    · rw [if_pos hc]
      have := splitOnColon_ne_nil cs
      simp only [List.length_cons]
      cases hsp : splitOnColon cs with
      | nil => exact absurd hsp this
      | cons r rs => simp
    · rw [if_neg hc]
      have hm : ':' ∈ cs := by
        rcases List.mem_cons.mp h with h1 | h1
        · exact absurd h1.symm hc
        · exact h1
      have h2 := ih hm
      cases hsp : splitOnColon cs with
      | nil => exact absurd hsp (splitOnColon_ne_nil cs)
      | cons r rs =>
        rw [hsp] at h2
        simpa using h2

/-- The last part of a colon split is empty exactly when the list ends
with a colon. -/
lemma splitOnColon_last {l : List Char} (hne : l ≠ []) :
    ((splitOnColon l).getLastD [] = [] ↔ l.getLast? = some ':') := by
  induction l with
  | nil => exact absurd rfl hne
  | cons c cs ih =>
    cases hcs : cs with
    | nil =>
      subst hcs
      unfold splitOnColon
      by_cases hc : c = ':'
      · subst hc; simp [splitOnColon]
      · rw [if_neg hc]
        simp [splitOnColon, hc]
    | cons d ds =>
      have hcsne : cs ≠ [] := by rw [hcs]; simp
      have ihh := ih hcsne
      have hlast : (c :: cs).getLast? = cs.getLast? := by
        rw [hcs]; exact List.getLast?_cons_cons
      rw [← hcs, hlast]
      unfold splitOnColon
      by_cases hc : c = ':'
      · rw [if_pos hc]
        rw [← ihh]
        cases hsp : splitOnColon cs with
        | nil => exact absurd hsp (splitOnColon_ne_nil cs)
        | cons r rs => simp [List.getLastD_cons]
      · rw [if_neg hc]
        cases hsp : splitOnColon cs with
        | nil => exact absurd hsp (splitOnColon_ne_nil cs)
        | cons r rs =>
          rw [hsp] at ihh
          cases rs with
          | nil =>
            simp only [List.getLastD_cons, List.getLastD_nil] at ihh ⊢
            constructor
            · intro hh; simp at hh
            · intro hh
              have hcol : ':' ∈ cs := List.mem_of_mem_getLast? hh
              have hlen := splitOnColon_len2 hcol
              rw [hsp] at hlen
              simp at hlen
          | cons r2 rs2 =>
            simp only [List.getLastD_cons] at ihh ⊢
            exact ihh

/-- When the string does not end with a colon, the `getline` tokens are
exactly the parts of the colon split. -/
lemma splitTokens_eq_splitOnColon {s : String} (hne : s.data ≠ [])
    (hlast : s.data.getLast? ≠ some ':') :
    splitTokens s = splitOnColon s.data := by
  obtain ⟨l⟩ := s
  cases l with
  | nil => exact absurd rfl hne
  | cons c cs =>
    show (if (splitOnColon (c :: cs)).getLastD [] = [] then _ else _) = _
    rw [if_neg]
    intro hcon
    exact hlast ((splitOnColon_last hne).mp hcon)

/-! ## Lemmas about the token checks of the validator -/

lemma checkTokens_cons_int {t : List Char} (ts : List (List Char))
    (h : specIsInt t = true) :
    checkTokens (t :: ts) =
      match stoi t with
      | .error e => .error e
      | .ok num =>
        if num = 0 then
          .error (.invalidRatio "Ratios cannot contain 0 as an integer.")
        else checkTokens ts := by
  conv_lhs => unfold checkTokens
  rw [if_neg]
  simp [isInteger_eq_specIsInt, h]

lemma checkTokens_cons_bad {t : List Char} (ts : List (List Char))
    (h : specIsInt t = false) :
    checkTokens (t :: ts) =
      .error (.invalidRatio "Ratios can only contain valid integers.") := by
  conv_lhs => unfold checkTokens
  rw [if_pos]
  simp [isInteger_eq_specIsInt, h]

lemma checkTokens_cons_val {t : List Char} (ts : List (List Char))
    (hsI : specIsInt t = true) {v : Int} (hst : stoi t = .ok v) :
    checkTokens (t :: ts) =
      if v = 0 then
        .error (.invalidRatio "Ratios cannot contain 0 as an integer.")
      else checkTokens ts := by
  rw [checkTokens_cons_int ts hsI, hst]

lemma checkTokens_cons_err {t : List Char} (ts : List (List Char))
    (hsI : specIsInt t = true) {e : LayoutErr} (hst : stoi t = .error e) :
    checkTokens (t :: ts) = .error e := by
  rw [checkTokens_cons_int ts hsI, hst]

/-- With every token in `int` range, the token stage rejects with
`InvalidRatioException` exactly when some token is not a grammar-integer
or has value zero. -/
lemma checkTokens_isIR_iff :
    ∀ ts : List (List Char), (∀ t ∈ ts, fitsInt t = true) →
    ((∃ m, checkTokens ts = .error (.invalidRatio m)) ↔
      ∃ t ∈ ts, specIsInt t = false ∨ (specIsInt t = true ∧ specTokVal t = 0)) := by
  intro ts
  induction ts with
  | nil => intro _; simp [checkTokens]
  | cons t ts ih =>
    intro hfit
    have hft : fitsInt t = true := hfit t (by simp)
    have hfts : ∀ u ∈ ts, fitsInt u = true := fun u hu => hfit u (by simp [hu])
    by_cases hsI : specIsInt t = true
    · have hst := stoi_ok hsI hft
      rw [checkTokens_cons_val ts hsI hst]
      by_cases hz : specTokVal t = 0
      · rw [if_pos hz]
        exact ⟨fun _ => ⟨t, by simp, Or.inr ⟨hsI, hz⟩⟩, fun _ => ⟨_, rfl⟩⟩
      · rw [if_neg hz, ih hfts]
        constructor
        · intro ⟨u, hu, hbad⟩
          exact ⟨u, by simp [hu], hbad⟩
        · intro ⟨u, hu, hbad⟩
          rcases List.mem_cons.mp hu with rfl | hu2
          · rcases hbad with h1 | ⟨h1, h2⟩
            · exact absurd hsI (by simp [h1])
            · exact absurd h2 hz
          · exact ⟨u, hu2, hbad⟩
    · have hsI2 : specIsInt t = false := by simpa using hsI
      rw [checkTokens_cons_bad ts hsI2]
      exact ⟨fun _ => ⟨t, by simp, Or.inl hsI2⟩, fun _ => ⟨_, rfl⟩⟩

/-- The token stage can only fail with `InvalidRatioException` or
`std::out_of_range` (never `std::invalid_argument`: `stoi` is only
reached on strings `isInteger` accepted). -/
lemma checkTokens_err :
    ∀ (ts : List (List Char)) (e : LayoutErr), checkTokens ts = .error e →
      (∃ m, e = .invalidRatio m) ∨ e = .outOfRange := by
  intro ts
  induction ts with
  | nil => intro e h; exact absurd h (by simp [checkTokens])
  | cons t ts ih =>
    intro e h
    by_cases hsI : specIsInt t = true
    · cases hst : stoi t with
      | error e2 =>
        rw [checkTokens_cons_err ts hsI hst] at h
        injection h with h1
        rcases stoi_err hst with h2 | h2
        · exact Or.inr (by rw [← h1, h2])
        · rw [h2] at hst
          rw [stoi_eq_of_specIsInt hsI] at hst
          by_cases hr : specTokVal t < INT_MIN ∨ INT_MAX < specTokVal t
          · rw [if_pos hr] at hst; exact absurd hst (by simp)
          · rw [if_neg hr] at hst; exact absurd hst (by simp)
      | ok v =>
        rw [checkTokens_cons_val ts hsI hst] at h
        by_cases hz : v = 0
        · rw [if_pos hz] at h
          injection h with h1
          exact Or.inl ⟨_, h1.symm⟩
        · rw [if_neg hz] at h
          exact ih e h
    · have hsI2 : specIsInt t = false := by simpa using hsI
      rw [checkTokens_cons_bad ts hsI2] at h
      injection h with h1
      exact Or.inl ⟨_, h1.symm⟩

lemma checkTokens_err_fits :
    ∀ (ts : List (List Char)) (e : LayoutErr),
      (∀ t ∈ ts, fitsInt t = true) → checkTokens ts = .error e →
      ∃ m, e = .invalidRatio m := by
  intro ts
  induction ts with
  | nil => intro e _ h; exact absurd h (by simp [checkTokens])
  | cons t ts ih =>
    intro e hfit h
    have hft : fitsInt t = true := hfit t (by simp)
    have hfts : ∀ u ∈ ts, fitsInt u = true := fun u hu => hfit u (by simp [hu])
    by_cases hsI : specIsInt t = true
    · have hst := stoi_ok hsI hft
      rw [checkTokens_cons_val ts hsI hst] at h
      by_cases hz : specTokVal t = 0
      · rw [if_pos hz] at h
        injection h with h1
        exact ⟨_, h1.symm⟩
      · rw [if_neg hz] at h
        exact ih e hfts h
    · have hsI2 : specIsInt t = false := by simpa using hsI
      rw [checkTokens_cons_bad ts hsI2] at h
      injection h with h1
      exact ⟨_, h1.symm⟩

/-- After a successful validation, every token converts, so the
extraction stage cannot fail. -/
lemma checkTokens_ok_mapM :
    ∀ ts : List (List Char), checkTokens ts = .ok () →
      ∃ vs, ts.mapM stoi = .ok vs := by
  intro ts
  induction ts with
  | nil => intro _; exact ⟨[], rfl⟩
  | cons t ts ih =>
    intro h
    by_cases hsI : specIsInt t = true
    · cases hst : stoi t with
      | error e2 =>
        rw [checkTokens_cons_err ts hsI hst] at h
        exact absurd h (by simp)
      | ok v =>
        rw [checkTokens_cons_val ts hsI hst] at h
        by_cases hz : v = 0
        · rw [if_pos hz] at h; exact absurd h (by simp)
        · rw [if_neg hz] at h
          obtain ⟨vs, hvs⟩ := ih h
          refine ⟨v :: vs, ?_⟩
          rw [List.mapM_cons, hst, hvs]
          rfl
    · have hsI2 : specIsInt t = false := by simpa using hsI
      rw [checkTokens_cons_bad ts hsI2] at h
      exact absurd h (by simp)

lemma foldl_hStep_eq (base fw fh sy : Int) :
    ∀ (ns : List Int) (lastX : Int) (acc : List IntRect),
      (List.foldl (hStep base fw fh sy) (lastX, acc) ns).2 =
        acc ++ hRec base fw fh sy lastX ns := by
  intro ns
  induction ns with
  | nil => intro lastX acc; simp [hRec]
  | cons n ns ih =>
    intro lastX acc
    simp only [List.foldl_cons, hStep, hRec]
    rw [ih]
    simp

lemma foldl_vStep_eq (base fw fh sx : Int) :
    ∀ (ns : List Int) (lastY : Int) (acc : List IntRect),
      (List.foldl (vStep base fw fh sx) (lastY, acc) ns).2 =
        acc ++ vRec base fw fh sx lastY ns := by
  intro ns
  induction ns with
  | nil => intro lastY acc; simp [vRec]
  | cons n ns ih =>
    intro lastY acc
    simp only [List.foldl_cons, vStep, vRec]
    rw [ih]
    simp

lemma calculateHBoxes_eq_hRec (nums : List Int) (dim : Option IntRect)
    (COLS LINES : Int) :
    calculateHBoxes nums dim COLS LINES =
      hRec nums.sum (boundW dim COLS) (boundH dim LINES) (boundY dim)
        (boundX dim - 1) nums := by
  unfold calculateHBoxes
  rw [foldl_hStep_eq, List.sum_eq_foldl]
  simp

lemma vBoundW_eq (dim : Option IntRect) (COLS : Int) :
    vBoundW dim COLS = boundW dim COLS := by
  cases dim with
  | none => rfl
  | some d => simp [vBoundW, boundW, IntRect.ur, IntRect.ul]

lemma vBoundH_eq (dim : Option IntRect) (LINES : Int) :
    vBoundH dim LINES = boundH dim LINES := by
  cases dim with
  | none => rfl
  | some d => simp [vBoundH, boundH, IntRect.lr, IntRect.ur]

lemma calculateVBoxes_eq_vRec (nums : List Int) (dim : Option IntRect)
    (COLS LINES : Int) :
    calculateVBoxes nums dim COLS LINES =
      vRec nums.sum (boundW dim COLS) (boundH dim LINES) (boundX dim)
        (boundY dim - 1) nums := by
  unfold calculateVBoxes
  rw [foldl_vStep_eq, List.sum_eq_foldl, vBoundW_eq, vBoundH_eq]
  simp

lemma foldl_hStepF_eq (base fw fh sy : Int) :
    ∀ (ns : List Int) (lastX : Int) (acc : List IntRect),
      (List.foldl (hStepF base fw fh sy) (lastX, acc) ns).2 =
        acc ++ specHGoF base fw fh sy lastX ns := by
  intro ns
  induction ns with
  | nil => intro lastX acc; simp [specHGoF]
  | cons n ns ih =>
    intro lastX acc
    simp only [List.foldl_cons, hStepF, specHGoF]
    rw [ih]
    have hcur : ∀ c : Int, lastX + c + 1 = lastX + 1 + c := fun c => by ring
    rw [hcur]
    simp

lemma calculateHBoxesF_eq_specHGoF (nums : List Int) (dim : Option IntRect)
    (COLS LINES : Int) :
    calculateHBoxesF nums dim COLS LINES =
      specHGoF nums.sum (boundW dim COLS) (boundH dim LINES) (boundY dim)
        (boundX dim - 1) nums := by
  unfold calculateHBoxesF
  rw [foldl_hStepF_eq, List.sum_eq_foldl]
  simp

lemma customHLayout_eq_ok {ratio : String} {nums : List Int}
    (dim : Option IntRect) (COLS LINES : Int)
    (hv : validateRatio ratio = .ok ())
    (he : extractNumsFromString ratio = .ok nums) :
    customHLayout ratio dim COLS LINES =
      .ok (calculateHBoxes nums dim COLS LINES) := by
  unfold customHLayout
  rw [hv, he]
  rfl

lemma customVLayout_eq_ok {ratio : String} {nums : List Int}
    (dim : Option IntRect) (COLS LINES : Int)
    (hv : validateRatio ratio = .ok ())
    (he : extractNumsFromString ratio = .ok nums) :
    customVLayout ratio dim COLS LINES =
      .ok (calculateVBoxes nums dim COLS LINES) := by
  unfold customVLayout
  rw [hv, he]
  rfl

lemma headD_colon {l : List Char} (hne : l ≠ []) :
    (l.headD ' ' = ':') ↔ l.head? = some ':' := by
  cases l with
  | nil => exact absurd rfl hne
  | cons c cs => simp

lemma getLastD_colon {l : List Char} (hne : l ≠ []) :
    (l.getLastD ' ' = ':') ↔ l.getLast? = some ':' := by
  rw [List.getLastD_eq_getLast?]
  cases hl : l.getLast? with
  | none => exact absurd (List.getLast?_eq_none_iff.mp hl) hne
  | some a => simp

/-- The four possible outcomes of `validateRatio`, following its check
order. -/
lemma validateRatio_shape (s : String) :
    (validateRatio s =
        .error (.invalidRatio "Ratios must contain at least one colon.") ∧
      ¬ s.data.contains ':' = true) ∨
    (validateRatio s =
        .error (.invalidRatio "Ratios cannot begin or end with a colon.") ∧
      (s.data.headD ' ' = ':' ∨ s.data.getLastD ' ' = ':')) ∨
    (validateRatio s =
        .error (.invalidRatio "Ratios can only be delimited by single colons.") ∧
      hasDoubleColon s.data = true) ∨
    (validateRatio s = checkTokens (splitTokens s) ∧
      s.data.contains ':' = true ∧
      ¬ (s.data.headD ' ' = ':' ∨ s.data.getLastD ' ' = ':') ∧
      hasDoubleColon s.data = false) := by
  unfold validateRatio
  by_cases h1 : ¬ s.data.contains ':' = true
  · rw [if_pos h1]; exact Or.inl ⟨rfl, h1⟩
  · rw [if_neg h1]
    have h1p : s.data.contains ':' = true := by
      by_contra hcon; exact h1 hcon
    by_cases h2 : s.data.headD ' ' = ':' ∨ s.data.getLastD ' ' = ':'
    · rw [if_pos h2]; exact Or.inr (Or.inl ⟨rfl, h2⟩)
    · rw [if_neg h2]
      by_cases h3 : hasDoubleColon s.data = true
      · rw [if_pos h3]; exact Or.inr (Or.inr (Or.inl ⟨rfl, h3⟩))
      · rw [if_neg h3]
        exact Or.inr (Or.inr (Or.inr ⟨rfl, h1p, h2, by simpa using h3⟩))

lemma validateRatio_err {s : String} {e : LayoutErr}
    (h : validateRatio s = .error e) :
    (∃ m, e = .invalidRatio m) ∨ e = .outOfRange := by
  rcases validateRatio_shape s with ⟨hv, _⟩ | ⟨hv, _⟩ | ⟨hv, _⟩ | ⟨hv, _⟩ <;>
    rw [hv] at h
  · injection h with h1; exact Or.inl ⟨_, h1.symm⟩
  · injection h with h1; exact Or.inl ⟨_, h1.symm⟩
  · injection h with h1; exact Or.inl ⟨_, h1.symm⟩
  · exact checkTokens_err _ _ h

lemma validateRatio_ok_tokens {s : String}
    (h : validateRatio s = .ok ()) :
    checkTokens (splitTokens s) = .ok () := by
  rcases validateRatio_shape s with ⟨hv, _⟩ | ⟨hv, _⟩ | ⟨hv, _⟩ | ⟨hv, _⟩ <;>
    rw [hv] at h
  · exact absurd h (by simp)
  · exact absurd h (by simp)
  · exact absurd h (by simp)
  · exact h

lemma validateRatio_err_fits {s : String} {e : LayoutErr}
    (hfit : fitsAll s = true) (h : validateRatio s = .error e) :
    ∃ m, e = .invalidRatio m := by
  rcases validateRatio_shape s with ⟨hv, _⟩ | ⟨hv, _⟩ | ⟨hv, _⟩ | ⟨hv, _⟩ <;>
    rw [hv] at h
  · injection h with h1; exact ⟨_, h1.symm⟩
  · injection h with h1; exact ⟨_, h1.symm⟩
  · injection h with h1; exact ⟨_, h1.symm⟩
  · exact checkTokens_err_fits _ _
      (by simpa [fitsAll, List.all_eq_true] using hfit) h


/-- The main grammar equivalence: with every token within `int` range,
validation fails with `InvalidRatioException` exactly under the spec's
five conditions. -/
lemma validateRatio_IR_iff (s : String) (hfit : fitsAll s = true) :
    ((∃ m, validateRatio s = .error (.invalidRatio m)) ↔ specRejectsP s) := by
  by_cases h1 : s.data.contains ':' = true
  · have hne : s.data ≠ [] := by
      intro hd; rw [hd] at h1; simp at h1
    by_cases h2 : s.data.headD ' ' = ':' ∨ s.data.getLastD ' ' = ':'
    · have hv : validateRatio s =
          .error (.invalidRatio "Ratios cannot begin or end with a colon.") := by
        unfold validateRatio
        rw [if_neg (not_not_intro h1), if_pos h2]
      refine iff_of_true ⟨_, hv⟩ ?_
      rcases h2 with h2 | h2
      · exact Or.inr (Or.inl ((headD_colon hne).mp h2))
      · exact Or.inr (Or.inr (Or.inl ((getLastD_colon hne).mp h2)))
    · by_cases h3 : hasDoubleColon s.data = true
      · have hv : validateRatio s =
            .error (.invalidRatio "Ratios can only be delimited by single colons.") := by
          unfold validateRatio
          rw [if_neg (not_not_intro h1), if_neg h2, if_pos h3]
        exact iff_of_true ⟨_, hv⟩ (Or.inr (Or.inr (Or.inr (Or.inl h3))))
      · have hlastne : s.data.getLast? ≠ some ':' := by
          intro hcon
          exact h2 (Or.inr ((getLastD_colon hne).mpr hcon))
        have hsp := splitTokens_eq_splitOnColon hne hlastne
        have hv : validateRatio s = checkTokens (splitTokens s) := by
          unfold validateRatio
          rw [if_neg (not_not_intro h1), if_neg h2, if_neg (by simpa using h3)]
        rw [hv, hsp]
        have hfit2 : ∀ t ∈ splitOnColon s.data, fitsInt t = true := by
          rw [← hsp]
          simpa [fitsAll, List.all_eq_true] using hfit
        rw [checkTokens_isIR_iff _ hfit2]
        unfold specRejectsP
        constructor
        · intro ⟨t, ht, hbad⟩
          rcases hbad with hb | ⟨hb1, hb2⟩
          · exact Or.inr (Or.inr (Or.inr (Or.inr (Or.inl ⟨t, ht, by simp [hb]⟩))))
          · exact Or.inr (Or.inr (Or.inr (Or.inr (Or.inr ⟨t, ht, hb1, hb2⟩))))
        · intro hd
          rcases hd with hd | hd | hd | hd | hd | hd
          · exact absurd h1 hd
          · exact absurd ((headD_colon hne).mpr hd) (fun hx => h2 (Or.inl hx))
          · exact absurd hd hlastne
          · exact absurd hd (by simpa using h3)
          · obtain ⟨t, ht, hb⟩ := hd
            exact ⟨t, ht, Or.inl (by simpa using hb)⟩
          · obtain ⟨t, ht, hb1, hb2⟩ := hd
            exact ⟨t, ht, Or.inr ⟨hb1, hb2⟩⟩
  · have hv : validateRatio s =
        .error (.invalidRatio "Ratios must contain at least one colon.") := by
      unfold validateRatio
      rw [if_pos h1]
    exact iff_of_true ⟨_, hv⟩ (Or.inl h1)


lemma customHLayout_val_err {s : String} {e : LayoutErr}
    (dim : Option IntRect) (COLS LINES : Int)
    (h : validateRatio s = .error e) :
    customHLayout s dim COLS LINES = .error e := by
  unfold customHLayout
  rw [h]
  rfl

lemma customVLayout_val_err {s : String} {e : LayoutErr}
    (dim : Option IntRect) (COLS LINES : Int)
    (h : validateRatio s = .error e) :
    customVLayout s dim COLS LINES = .error e := by
  unfold customVLayout
  rw [h]
  rfl

lemma validateRatio_ok_extract {s : String}
    (h : validateRatio s = .ok ()) :
    ∃ nums, extractNumsFromString s = .ok nums := by
  obtain ⟨vs, hvs⟩ := checkTokens_ok_mapM _ (validateRatio_ok_tokens h)
  exact ⟨vs, hvs⟩

lemma customHLayout_val_ok {s : String}
    (dim : Option IntRect) (COLS LINES : Int)
    (h : validateRatio s = .ok ()) :
    ∃ nums, extractNumsFromString s = .ok nums ∧
      customHLayout s dim COLS LINES = .ok (calculateHBoxes nums dim COLS LINES) := by
  obtain ⟨nums, hn⟩ := validateRatio_ok_extract h
  exact ⟨nums, hn, customHLayout_eq_ok dim COLS LINES h hn⟩

lemma customVLayout_val_ok {s : String}
    (dim : Option IntRect) (COLS LINES : Int)
    (h : validateRatio s = .ok ()) :
    ∃ nums, extractNumsFromString s = .ok nums ∧
      customVLayout s dim COLS LINES = .ok (calculateVBoxes nums dim COLS LINES) := by
  obtain ⟨nums, hn⟩ := validateRatio_ok_extract h
  exact ⟨nums, hn, customVLayout_eq_ok dim COLS LINES h hn⟩

lemma customHLayout_err {s : String} {dim : Option IntRect}
    {COLS LINES : Int} {e : LayoutErr}
    (h : customHLayout s dim COLS LINES = .error e) :
    validateRatio s = .error e := by
  cases hv : validateRatio s with
  | error e2 =>
    rw [customHLayout_val_err dim COLS LINES hv] at h
    injection h with h1
    rw [← h1]
  | ok v =>
    cases v
    obtain ⟨nums, _, hok⟩ := customHLayout_val_ok dim COLS LINES hv
    rw [hok] at h
    exact absurd h (by simp)

lemma customVLayout_err {s : String} {dim : Option IntRect}
    {COLS LINES : Int} {e : LayoutErr}
    (h : customVLayout s dim COLS LINES = .error e) :
    validateRatio s = .error e := by
  cases hv : validateRatio s with
  | error e2 =>
    rw [customVLayout_val_err dim COLS LINES hv] at h
    injection h with h1
    rw [← h1]
  | ok v =>
    cases v
    obtain ⟨nums, _, hok⟩ := customVLayout_val_ok dim COLS LINES hv
    rw [hok] at h
    exact absurd h (by simp)

lemma isIRb_customHLayout (s : String) (dim : Option IntRect)
    (COLS LINES : Int) :
    isIRb (customHLayout s dim COLS LINES) = isIRb (validateRatio s) := by
  cases hv : validateRatio s with
  | error e2 =>
    rw [customHLayout_val_err dim COLS LINES hv]
    cases e2 <;> rfl
  | ok v =>
    cases v
    obtain ⟨nums, _, hok⟩ := customHLayout_val_ok dim COLS LINES hv
    rw [hok]
    rfl

lemma isIRb_customVLayout (s : String) (dim : Option IntRect)
    (COLS LINES : Int) :
    isIRb (customVLayout s dim COLS LINES) = isIRb (validateRatio s) := by
  cases hv : validateRatio s with
  | error e2 =>
    rw [customVLayout_val_err dim COLS LINES hv]
    cases e2 <;> rfl
  | ok v =>
    cases v
    obtain ⟨nums, _, hok⟩ := customVLayout_val_ok dim COLS LINES hv
    rw [hok]
    rfl

/-! ## Claim theorems, witnesses and counterexamples -/

lemma presetH_ok (s : String) (nums : List Int) (dim : Option IntRect)
    (COLS LINES : Int) (hv : validateRatio s = .ok ())
    (he : extractNumsFromString s = .ok nums) :
    isIRb (customHLayout s dim COLS LINES) = false ∧
    ∃ bs, customHLayout s dim COLS LINES = Except.ok bs := by
  have h := customHLayout_eq_ok dim COLS LINES hv he
  exact ⟨by rw [h]; rfl, ⟨_, h⟩⟩

lemma presetV_ok (s : String) (nums : List Int) (dim : Option IntRect)
    (COLS LINES : Int) (hv : validateRatio s = .ok ())
    (he : extractNumsFromString s = .ok nums) :
    isIRb (customVLayout s dim COLS LINES) = false ∧
    ∃ bs, customVLayout s dim COLS LINES = Except.ok bs := by
  have h := customVLayout_eq_ok dim COLS LINES hv he
  exact ⟨by rw [h]; rfl, ⟨_, h⟩⟩

/-- Claim C3: `customHLayout "1:1:2"` on the bounding rectangle 99 wide and
29 high at origin (0,0) returns exactly the three rectangles
(0,0) 24-by-29, (25,0) 24-by-29 and (50,0) 49-by-29: widths
floor(99/4) = 24, 24, and the clamped 99 - (49 + 1) = 49. -/
theorem claim_C3 :
    customHLayout "1:1:2" (some ⟨0, 0, 99, 29⟩) 0 0 =
      .ok [⟨0, 0, 24, 29⟩, ⟨25, 0, 24, 29⟩, ⟨50, 0, 49, 29⟩] := rfl

/-- Claim C6: each layout operation is a pure function of its arguments:
two calls with identical arguments give identical results. -/
theorem claim_C6 :
    ∀ (ratio : String) (dim : Option IntRect) (COLS LINES : Int),
      customHLayout ratio dim COLS LINES = customHLayout ratio dim COLS LINES ∧
      customVLayout ratio dim COLS LINES = customVLayout ratio dim COLS LINES ∧
      HSplit dim COLS LINES = HSplit dim COLS LINES ∧
      HTwoThirdsLeft dim COLS LINES = HTwoThirdsLeft dim COLS LINES ∧
      HTwoThirdsRight dim COLS LINES = HTwoThirdsRight dim COLS LINES ∧
      HThirds dim COLS LINES = HThirds dim COLS LINES ∧
      VSplit dim COLS LINES = VSplit dim COLS LINES ∧
      VTwoThirdsAbove dim COLS LINES = VTwoThirdsAbove dim COLS LINES ∧
      VTwoThirdsBelow dim COLS LINES = VTwoThirdsBelow dim COLS LINES ∧
      VThirds dim COLS LINES = VThirds dim COLS LINES :=
  fun _ _ _ _ => ⟨rfl, rfl, rfl, rfl, rfl, rfl, rfl, rfl, rfl, rfl⟩

/-- Claim C7: every preset equals the corresponding custom layout applied
to its fixed ratio constant, and no preset ever raises
`InvalidRatioException` (each always returns a result). -/
theorem claim_C7 :
    ∀ (dim : Option IntRect) (COLS LINES : Int),
      (HSplit dim COLS LINES = customHLayout "1:1" dim COLS LINES ∧
        isIRb (HSplit dim COLS LINES) = false ∧
        ∃ bs, HSplit dim COLS LINES = Except.ok bs) ∧
      (HTwoThirdsLeft dim COLS LINES = customHLayout "2:1" dim COLS LINES ∧
        isIRb (HTwoThirdsLeft dim COLS LINES) = false ∧
        ∃ bs, HTwoThirdsLeft dim COLS LINES = Except.ok bs) ∧
      (HTwoThirdsRight dim COLS LINES = customHLayout "1:2" dim COLS LINES ∧
        isIRb (HTwoThirdsRight dim COLS LINES) = false ∧
        ∃ bs, HTwoThirdsRight dim COLS LINES = Except.ok bs) ∧
      (HThirds dim COLS LINES = customHLayout "1:1:1" dim COLS LINES ∧
        isIRb (HThirds dim COLS LINES) = false ∧
        ∃ bs, HThirds dim COLS LINES = Except.ok bs) ∧
      (VSplit dim COLS LINES = customVLayout "1:1" dim COLS LINES ∧
        isIRb (VSplit dim COLS LINES) = false ∧
        ∃ bs, VSplit dim COLS LINES = Except.ok bs) ∧
      (VTwoThirdsAbove dim COLS LINES = customVLayout "2:1" dim COLS LINES ∧
        isIRb (VTwoThirdsAbove dim COLS LINES) = false ∧
        ∃ bs, VTwoThirdsAbove dim COLS LINES = Except.ok bs) ∧
      (VTwoThirdsBelow dim COLS LINES = customVLayout "1:2" dim COLS LINES ∧
        isIRb (VTwoThirdsBelow dim COLS LINES) = false ∧
        ∃ bs, VTwoThirdsBelow dim COLS LINES = Except.ok bs) ∧
      (VThirds dim COLS LINES = customVLayout "1:1:1" dim COLS LINES ∧
        isIRb (VThirds dim COLS LINES) = false ∧
        ∃ bs, VThirds dim COLS LINES = Except.ok bs) := by
  intro dim COLS LINES
  exact ⟨⟨rfl, presetH_ok "1:1" [1, 1] dim COLS LINES rfl rfl⟩,
    ⟨rfl, presetH_ok "2:1" [2, 1] dim COLS LINES rfl rfl⟩,
    ⟨rfl, presetH_ok "1:2" [1, 2] dim COLS LINES rfl rfl⟩,
    ⟨rfl, presetH_ok "1:1:1" [1, 1, 1] dim COLS LINES rfl rfl⟩,
    ⟨rfl, presetV_ok "1:1" [1, 1] dim COLS LINES rfl rfl⟩,
    ⟨rfl, presetV_ok "2:1" [2, 1] dim COLS LINES rfl rfl⟩,
    ⟨rfl, presetV_ok "1:2" [1, 2] dim COLS LINES rfl rfl⟩,
    ⟨rfl, presetV_ok "1:1:1" [1, 1, 1] dim COLS LINES rfl rfl⟩⟩

/-- Claim C2, counterexample: the string "9999999999:0" contains a token
equal to zero (so the claimed iff demands `InvalidRatio`), but validation
raises `std::out_of_range` from `std::stoi` on the first token instead. -/
theorem claim_C2_counterexample :
    validateRatio "9999999999:0" = .error LayoutErr.outOfRange ∧
    isIRb (validateRatio "9999999999:0") = false ∧
    specRejectsP "9999999999:0" := ⟨rfl, rfl, by decide⟩

/-- Claim C2 (amended): provided every colon-delimited token's value fits
in a 32-bit `int`, validation raises `InvalidRatioException` exactly when
the string contains no colon, begins or ends with a colon, has two
adjacent colons, has a token that is not an optionally signed integer, or
has a token equal to zero; the custom layout entry points raise
`InvalidRatioException` exactly when validation does; and the listed
example strings behave as stated. -/
theorem claim_C2_amended :
    (∀ s : String, fitsAll s = true →
      ((∃ m, validateRatio s = .error (.invalidRatio m)) ↔ specRejectsP s)) ∧
    (∀ (s : String) (dim : Option IntRect) (COLS LINES : Int),
      isIRb (customHLayout s dim COLS LINES) = isIRb (validateRatio s) ∧
      isIRb (customVLayout s dim COLS LINES) = isIRb (validateRatio s)) ∧
    isIRb (validateRatio "") = true ∧
    isIRb (validateRatio ":") = true ∧
    isIRb (validateRatio "1") = true ∧
    isIRb (validateRatio "1::2") = true ∧
    isIRb (validateRatio ":1:2") = true ∧
    isIRb (validateRatio "1:2:") = true ∧
    isIRb (validateRatio "1:a:2") = true ∧
    isIRb (validateRatio "1:0:2") = true ∧
    isIRb (validateRatio "1:1:2") = false ∧
    isIRb (validateRatio "3:2:1:1") = false ∧
    isIRb (validateRatio "-1:2") = false :=
  ⟨fun s h => validateRatio_IR_iff s h,
    fun s dim COLS LINES =>
      ⟨isIRb_customHLayout s dim COLS LINES, isIRb_customVLayout s dim COLS LINES⟩,
    rfl, rfl, rfl, rfl, rfl, rfl, rfl, rfl, rfl, rfl, rfl⟩

/-- Witness for the amended claim C2 at the concrete string "1:0:2". -/
theorem claim_C2_witness :
    fitsAll "1:0:2" = true ∧
    ((∃ m, validateRatio "1:0:2" = .error (.invalidRatio m)) ↔
      specRejectsP "1:0:2") :=
  ⟨by decide, claim_C2_amended.1 "1:0:2" (by decide)⟩

/-- Claim C8, counterexample: `customHLayout "9999999999:1"` lets
`std::out_of_range` (not `InvalidRatioException`) escape. -/
theorem claim_C8_counterexample :
    customHLayout "9999999999:1" none 80 24 = .error LayoutErr.outOfRange ∧
    isIRb (customHLayout "9999999999:1" none 80 24) = false := ⟨rfl, rfl⟩

/-- Claim C8 (amended): every error escaping the custom layout entry
points is `InvalidRatioException` or `std::out_of_range`; when every token
fits in `int`, `InvalidRatioException` is the only possible error. -/
theorem claim_C8_amended :
    ∀ (s : String) (dim : Option IntRect) (COLS LINES : Int) (e : LayoutErr),
      (customHLayout s dim COLS LINES = .error e ∨
        customVLayout s dim COLS LINES = .error e) →
      ((∃ m, e = .invalidRatio m) ∨ e = .outOfRange) ∧
      (fitsAll s = true → ∃ m, e = .invalidRatio m) := by
  intro s dim COLS LINES e h
  have hv : validateRatio s = .error e := by
    rcases h with h | h
    · exact customHLayout_err h
    · exact customVLayout_err h
  exact ⟨validateRatio_err hv, fun hf => validateRatio_err_fits hf hv⟩

/-- Witness for the amended claim C8 at the concrete string ":". -/
theorem claim_C8_witness :
    ((∃ m, LayoutErr.invalidRatio "Ratios cannot begin or end with a colon." =
        LayoutErr.invalidRatio m) ∨
      LayoutErr.invalidRatio "Ratios cannot begin or end with a colon." =
        LayoutErr.outOfRange) ∧
    (fitsAll ":" = true →
      ∃ m, LayoutErr.invalidRatio "Ratios cannot begin or end with a colon." =
        LayoutErr.invalidRatio m) :=
  claim_C8_amended ":" none 0 0
    (LayoutErr.invalidRatio "Ratios cannot begin or end with a colon.")
    (Or.inl rfl)

lemma tdiv_eq_fdiv_of_nonneg {a b : Int} (ha : 0 ≤ a) (hb : 0 ≤ b) :
    Int.tdiv a b = Int.fdiv a b := by
  rw [Int.tdiv_eq_ediv ha hb, Int.fdiv_eq_ediv _ hb]

lemma hRec_eq_specHGo (base fw fh sy : Int) (hb : 0 ≤ base) (hw : 0 ≤ fw) :
    ∀ (ns : List Int) (lastX : Int), (∀ n ∈ ns, 0 < n) →
      hRec base fw fh sy lastX ns = specHGo base fw fh sy lastX ns := by
  intro ns
  induction ns with
  | nil => intro _ _; rfl
  | cons n ns ih =>
    intro lastX hpos
    have hn : 0 < n := hpos n (by simp)
    have hdd : Int.tdiv (n * fw) base = Int.fdiv (n * fw) base :=
      tdiv_eq_fdiv_of_nonneg (mul_nonneg hn.le hw) hb
    show (let c0 := Int.tdiv (n * fw) base
          let c := if lastX + 1 + c0 ≥ fw then fw - (lastX + 1) else c0
          (⟨lastX + 1, sy, c, fh⟩ : IntRect) :: hRec base fw fh sy (lastX + c + 1) ns) =
         (let c0 := Int.fdiv (n * fw) base
          let c := if lastX + 1 + c0 ≥ fw then fw - (lastX + 1) else c0
          (⟨lastX + 1, sy, c, fh⟩ : IntRect) :: specHGo base fw fh sy (lastX + 1 + c) ns)
    simp only [hdd]
    have hcur : ∀ c : Int, lastX + c + 1 = lastX + 1 + c := by intro c; ring
    rw [hcur]
    rw [ih _ (fun m hm => hpos m (by simp [hm]))]


lemma vRec_eq_specVGo (base fw fh sx : Int) (hb : 0 ≤ base) (hh : 0 ≤ fh) :
    ∀ (ns : List Int) (lastY : Int), (∀ n ∈ ns, 0 < n) →
      vRec base fw fh sx lastY ns = specVGo base fw fh sx lastY ns := by
  intro ns
  induction ns with
  | nil => intro _ _; rfl
  | cons n ns ih =>
    intro lastY hpos
    have hn : 0 < n := hpos n (by simp)
    have hdd : Int.tdiv (n * fh) base = Int.fdiv (n * fh) base :=
      tdiv_eq_fdiv_of_nonneg (mul_nonneg hn.le hh) hb
    show (let r0 := Int.tdiv (n * fh) base
          let r := if lastY + 1 + r0 ≥ fh then fh - (lastY + 1) else r0
          (⟨sx, lastY + 1, fw, r⟩ : IntRect) :: vRec base fw fh sx (lastY + r + 1) ns) =
         (let r0 := Int.fdiv (n * fh) base
          let r := if lastY + 1 + r0 ≥ fh then fh - (lastY + 1) else r0
          (⟨sx, lastY + 1, fw, r⟩ : IntRect) :: specVGo base fw fh sx (lastY + 1 + r) ns)
    simp only [hdd]
    have hcur : ∀ r : Int, lastY + r + 1 = lastY + 1 + r := by intro r; ring
    rw [hcur]
    rw [ih _ (fun m hm => hpos m (by simp [hm]))]

lemma hRec_length (base fw fh sy : Int) :
    ∀ (ns : List Int) (lastX : Int),
      (hRec base fw fh sy lastX ns).length = ns.length := by
  intro ns
  induction ns with
  | nil => intro _; rfl
  | cons n ns ih => intro lastX; simp only [hRec, List.length_cons, ih]

lemma vRec_length (base fw fh sx : Int) :
    ∀ (ns : List Int) (lastY : Int),
      (vRec base fw fh sx lastY ns).length = ns.length := by
  intro ns
  induction ns with
  | nil => intro _; rfl
  | cons n ns ih => intro lastY; simp only [vRec, List.length_cons, ih]

lemma hRec_chain (base fw fh sy : Int) :
    ∀ (ns : List Int) (lastX : Int),
      List.Chain' (fun a b => b.x = a.x + a.w + 1)
        (hRec base fw fh sy lastX ns) := by
  intro ns
  induction ns with
  | nil => intro _; simp [hRec]
  | cons n ns ih =>
    intro lastX
    rw [hRec, List.chain'_cons']
    refine ⟨?_, ih _⟩
    intro y hy
    cases ns with
    | nil => simp [hRec] at hy
    | cons m ms =>
      rw [hRec] at hy
      simp only [List.head?_cons, Option.mem_def, Option.some.injEq] at hy
      rw [← hy]
      simp
      ring

lemma vRec_chain (base fw fh sx : Int) :
    ∀ (ns : List Int) (lastY : Int),
      List.Chain' (fun a b => b.y = a.y + a.h + 1)
        (vRec base fw fh sx lastY ns) := by
  intro ns
  induction ns with
  | nil => intro _; simp [vRec]
  | cons n ns ih =>
    intro lastY
    rw [vRec, List.chain'_cons']
    refine ⟨?_, ih _⟩
    intro y hy
    cases ns with
    | nil => simp [vRec] at hy
    | cons m ms =>
      rw [vRec] at hy
      simp only [List.head?_cons, Option.mem_def, Option.some.injEq] at hy
      rw [← hy]
      simp
      ring

lemma hRec_mem (base fw fh sy : Int) (hb : 0 ≤ base) (hw : 0 ≤ fw) :
    ∀ (ns : List Int) (lastX : Int), (∀ n ∈ ns, 0 < n) →
      ∀ b ∈ hRec base fw fh sy lastX ns,
        b.h = fh ∧ (0 ≤ b.w ∨ b.w = fw - b.x) := by
  intro ns
  induction ns with
  | nil => intro _ _ b hb2; simp [hRec] at hb2
  | cons n ns ih =>
    intro lastX hpos b hmem
    rw [hRec] at hmem
    rcases List.mem_cons.mp hmem with rfl | hmem2
    · refine ⟨rfl, ?_⟩
      by_cases hcl : lastX + 1 + Int.tdiv (n * fw) base ≥ fw
      · rw [if_pos hcl]
        exact Or.inr (by simp)
      · rw [if_neg hcl]
        exact Or.inl (Int.tdiv_nonneg
          (mul_nonneg (hpos n (by simp)).le hw) hb)
    · exact ih _ (fun m hm => hpos m (by simp [hm])) b hmem2

lemma vRec_mem (base fw fh sx : Int) (hb : 0 ≤ base) (hh : 0 ≤ fh) :
    ∀ (ns : List Int) (lastY : Int), (∀ n ∈ ns, 0 < n) →
      ∀ b ∈ vRec base fw fh sx lastY ns,
        b.w = fw ∧ (0 ≤ b.h ∨ b.h = fh - b.y) := by
  intro ns
  induction ns with
  | nil => intro _ _ b hb2; simp [vRec] at hb2
  | cons n ns ih =>
    intro lastY hpos b hmem
    rw [vRec] at hmem
    rcases List.mem_cons.mp hmem with rfl | hmem2
    · refine ⟨rfl, ?_⟩
      by_cases hcl : lastY + 1 + Int.tdiv (n * fh) base ≥ fh
      · rw [if_pos hcl]
        exact Or.inr (by simp)
      · rw [if_neg hcl]
        exact Or.inl (Int.tdiv_nonneg
          (mul_nonneg (hpos n (by simp)).le hh) hb)
    · exact ih _ (fun m hm => hpos m (by simp [hm])) b hmem2

lemma hRec_neg (base fw fh sy : Int) (hb : 0 ≤ base) (hw : 0 ≤ fw) :
    ∀ (ns : List Int) (lastX : Int), (∀ n ∈ ns, 0 < n) → fw ≤ lastX →
      ∀ b ∈ hRec base fw fh sy lastX ns, b.w < 0 := by
  intro ns
  induction ns with
  | nil => intro _ _ _ b hb2; simp [hRec] at hb2
  | cons n ns ih =>
    intro lastX hpos hcur b hmem
    have hc0 : 0 ≤ Int.tdiv (n * fw) base :=
      Int.tdiv_nonneg (mul_nonneg (hpos n (by simp)).le hw) hb
    have hcl : lastX + 1 + Int.tdiv (n * fw) base ≥ fw := by omega
    rw [hRec] at hmem
    rw [if_pos hcl] at hmem
    rcases List.mem_cons.mp hmem with rfl | hmem2
    · show fw - (lastX + 1) < 0
      omega
    · refine ih _ (fun m hm => hpos m (by simp [hm])) ?_ b hmem2
      omega

lemma vRec_neg (base fw fh sx : Int) (hb : 0 ≤ base) (hh : 0 ≤ fh) :
    ∀ (ns : List Int) (lastY : Int), (∀ n ∈ ns, 0 < n) → fh ≤ lastY →
      ∀ b ∈ vRec base fw fh sx lastY ns, b.h < 0 := by
  intro ns
  induction ns with
  | nil => intro _ _ _ b hb2; simp [vRec] at hb2
  | cons n ns ih =>
    intro lastY hpos hcur b hmem
    have hr0 : 0 ≤ Int.tdiv (n * fh) base :=
      Int.tdiv_nonneg (mul_nonneg (hpos n (by simp)).le hh) hb
    have hcl : lastY + 1 + Int.tdiv (n * fh) base ≥ fh := by omega
    rw [vRec] at hmem
    rw [if_pos hcl] at hmem
    rcases List.mem_cons.mp hmem with rfl | hmem2
    · show fh - (lastY + 1) < 0
      omega
    · refine ih _ (fun m hm => hpos m (by simp [hm])) ?_ b hmem2
      omega


/-- Claim C1, counterexample: the claimed width floor((w/base)*fullWidth)
does not match the program.  With weights 1:2 (base 3) on the rectangle
(0, 0, 33554435, 5), the binary32 computation emits first width 11184812
— float(1/3) = 11184811 * 2^-25 and float(33554435) = 33554436, whose
rounded product is 11184812 — while floor((1/3) * 33554435) = 11184811;
both emitted rectangles differ from the spec's. -/
theorem claim_C1_counterexample :
    calculateHBoxesF [1, 2] (some ⟨0, 0, 33554435, 5⟩) 0 0 ≠
      specHBoxes [1, 2] (some ⟨0, 0, 33554435, 5⟩) 0 0 ∧
    calculateHBoxesF [1, 2] (some ⟨0, 0, 33554435, 5⟩) 0 0 =
      [⟨0, 0, 11184812, 5⟩, ⟨11184813, 0, 22369622, 5⟩] ∧
    specHBoxes [1, 2] (some ⟨0, 0, 33554435, 5⟩) 0 0 =
      [⟨0, 0, 11184811, 5⟩, ⟨11184812, 0, 22369623, 5⟩] :=
  ⟨by decide, by decide, by decide⟩

/-- Claim C1 (amended): for every non-empty list of weights and every
supplied or defaulted bounding rectangle, `calculateHBoxes` emits, in
order, one rectangle per weight computed by the spec's algorithm — height
= bounding height, clamp when `lastX + 1 + columns ≥ fullWidth` to
`fullWidth - (lastX + 1)`, origin `(lastX + 1, startY)`, cursor advance
to the emitted right edge, default frame `(COLS - 1, LINES - 1, 0, 0)` —
except that the width is the program's binary32 value
`(int)(((float) w / base) * fullWidth)` rather than the claimed
`floor((w / base) * fullWidth)`, from which it can drift; the two agree
on the spec's concrete 99-wide scenario. -/
theorem claim_C1_amended :
    (∀ (nums : List Int) (dim : Option IntRect) (COLS LINES : Int),
      nums ≠ [] →
      calculateHBoxesF nums dim COLS LINES = specHBoxesF nums dim COLS LINES) ∧
    calculateHBoxesF [1, 1, 2] (some ⟨0, 0, 99, 29⟩) 0 0 =
      specHBoxes [1, 1, 2] (some ⟨0, 0, 99, 29⟩) 0 0 :=
  ⟨fun nums dim COLS LINES _ => calculateHBoxesF_eq_specHGoF nums dim COLS LINES,
    by decide⟩

/-- Witness for the amended claim C1 at weights 1:1:2 on the 99-by-29
rectangle. -/
theorem claim_C1_witness :
    ([1, 1, 2] : List Int) ≠ [] ∧
    calculateHBoxesF [1, 1, 2] (some ⟨0, 0, 99, 29⟩) 0 0 =
      specHBoxesF [1, 1, 2] (some ⟨0, 0, 99, 29⟩) 0 0 :=
  ⟨by decide, claim_C1_amended.1 [1, 1, 2] (some ⟨0, 0, 99, 29⟩) 0 0 (by decide)⟩

/-- Claim C4: in every rectangle sequence returned by `customHLayout`,
each rectangle's origin x is the previous rectangle's origin x plus its
width plus one; likewise for `customVLayout` on origin y and height. -/
theorem claim_C4 :
    ∀ (ratio : String) (dim : Option IntRect) (COLS LINES : Int)
      (boxes : List IntRect),
      (customHLayout ratio dim COLS LINES = .ok boxes →
        List.Chain' (fun a b => b.x = a.x + a.w + 1) boxes) ∧
      (customVLayout ratio dim COLS LINES = .ok boxes →
        List.Chain' (fun a b => b.y = a.y + a.h + 1) boxes) := by
  intro ratio dim COLS LINES boxes
  constructor
  · intro h
    cases hv : validateRatio ratio with
    | error e =>
      rw [customHLayout_val_err dim COLS LINES hv] at h
      exact absurd h (by simp)
    | ok v =>
      cases v
      obtain ⟨nums, _, hok⟩ := customHLayout_val_ok dim COLS LINES hv
      rw [hok] at h
      injection h with h1
      rw [← h1, calculateHBoxes_eq_hRec]
      exact hRec_chain _ _ _ _ nums _
  · intro h
    cases hv : validateRatio ratio with
    | error e =>
      rw [customVLayout_val_err dim COLS LINES hv] at h
      exact absurd h (by simp)
    | ok v =>
      cases v
      obtain ⟨nums, _, hok⟩ := customVLayout_val_ok dim COLS LINES hv
      rw [hok] at h
      injection h with h1
      rw [← h1, calculateVBoxes_eq_vRec]
      exact vRec_chain _ _ _ _ nums _

/-- Witness for claim C4 at ratio "1:1:2" on the 99-by-29 rectangle. -/
theorem claim_C4_witness :
    List.Chain' (fun a b => b.x = a.x + a.w + 1)
      [(⟨0, 0, 24, 29⟩ : IntRect), ⟨25, 0, 24, 29⟩, ⟨50, 0, 49, 29⟩] ∧
    List.Chain' (fun a b => b.y = a.y + a.h + 1)
      [(⟨0, 0, 99, 7⟩ : IntRect), ⟨0, 8, 99, 7⟩, ⟨0, 16, 99, 13⟩] :=
  ⟨(claim_C4 "1:1:2" (some ⟨0, 0, 99, 29⟩) 0 0
      [⟨0, 0, 24, 29⟩, ⟨25, 0, 24, 29⟩, ⟨50, 0, 49, 29⟩]).1 rfl,
    (claim_C4 "1:1:2" (some ⟨0, 0, 99, 29⟩) 0 0
      [⟨0, 0, 99, 7⟩, ⟨0, 8, 99, 7⟩, ⟨0, 16, 99, 13⟩]).2 rfl⟩


/-- Claim C5, counterexample: for the valid ratio "1:1:1:1" on the
rectangle (0, 0, 4, 1) the fourth emitted width is -1: an emitted
dimension is negative, refuting the claim. -/
theorem claim_C5_counterexample :
    customHLayout "1:1:1:1" (some ⟨0, 0, 4, 1⟩) 0 0 =
      .ok [⟨0, 0, 1, 1⟩, ⟨2, 0, 1, 1⟩, ⟨4, 0, 0, 1⟩, ⟨5, 0, -1, 1⟩] ∧
    ((-1 : Int) < 0) := ⟨rfl, by decide⟩

/-- Claim C5 (amended): for positive weights and a bounding rectangle of
nonnegative dimensions, the layout always returns exactly one rectangle
per weight (a deterministic value, never a crash); for `customHLayout`
every rectangle's height is exactly the bounding height (hence
nonnegative), and a width is either the nonnegative truncated
proportional share or the clamp value fullWidth minus the rectangle's
origin x, which can be zero or negative; symmetrically for
`customVLayout`. -/
theorem claim_C5_amended :
    ∀ (ratio : String) (dim : Option IntRect) (COLS LINES : Int)
      (boxes : List IntRect) (nums : List Int),
      extractNumsFromString ratio = .ok nums →
      (∀ n ∈ nums, 0 < n) →
      0 ≤ boundW dim COLS → 0 ≤ boundH dim LINES →
      (customHLayout ratio dim COLS LINES = .ok boxes →
        boxes.length = nums.length ∧
        ∀ b ∈ boxes, b.h = boundH dim LINES ∧ 0 ≤ b.h ∧
          (0 ≤ b.w ∨ b.w = boundW dim COLS - b.x)) ∧
      (customVLayout ratio dim COLS LINES = .ok boxes →
        boxes.length = nums.length ∧
        ∀ b ∈ boxes, b.w = boundW dim COLS ∧ 0 ≤ b.w ∧
          (0 ≤ b.h ∨ b.h = boundH dim LINES - b.y)) := by
  intro ratio dim COLS LINES boxes nums he hpos hw hh
  have hbase : 0 ≤ nums.sum := List.sum_nonneg fun x hx => (hpos x hx).le
  constructor
  · intro h
    cases hv : validateRatio ratio with
    | error e =>
      rw [customHLayout_val_err dim COLS LINES hv] at h
      exact absurd h (by simp)
    | ok v =>
      cases v
      have hok := customHLayout_eq_ok dim COLS LINES hv he
      rw [hok] at h
      injection h with h1
      rw [← h1, calculateHBoxes_eq_hRec]
      refine ⟨hRec_length _ _ _ _ nums _, ?_⟩
      intro b hmem
      obtain ⟨hbh, hbw⟩ := hRec_mem _ _ _ _ hbase hw nums _ hpos b hmem
      exact ⟨hbh, hbh ▸ hh, hbw⟩
  · intro h
    cases hv : validateRatio ratio with
    | error e =>
      rw [customVLayout_val_err dim COLS LINES hv] at h
      exact absurd h (by simp)
    | ok v =>
      cases v
      have hok := customVLayout_eq_ok dim COLS LINES hv he
      rw [hok] at h
      injection h with h1
      rw [← h1, calculateVBoxes_eq_vRec]
      refine ⟨vRec_length _ _ _ _ nums _, ?_⟩
      intro b hmem
      obtain ⟨hbw, hbh⟩ := vRec_mem _ _ _ _ hbase hh nums _ hpos b hmem
      exact ⟨hbw, hbw ▸ hw, hbh⟩

/-- Witness for the amended claim C5 at ratio "1:1:2" on the 99-by-29
rectangle. -/
theorem claim_C5_witness :
    ([(⟨0, 0, 24, 29⟩ : IntRect), ⟨25, 0, 24, 29⟩, ⟨50, 0, 49, 29⟩].length =
        ([1, 1, 2] : List Int).length) ∧
    ∀ b ∈ [(⟨0, 0, 24, 29⟩ : IntRect), ⟨25, 0, 24, 29⟩, ⟨50, 0, 49, 29⟩],
      b.h = boundH (some ⟨0, 0, 99, 29⟩) 0 ∧ 0 ≤ b.h ∧
        (0 ≤ b.w ∨ b.w = boundW (some ⟨0, 0, 99, 29⟩) 0 - b.x) :=
  (claim_C5_amended "1:1:2" (some ⟨0, 0, 99, 29⟩) 0 0
    [⟨0, 0, 24, 29⟩, ⟨25, 0, 24, 29⟩, ⟨50, 0, 49, 29⟩] [1, 1, 2]
    rfl (by decide) (by decide) (by decide)).1 rfl

/-- Claim C10, counterexample: "-10:11" is a valid ratio and the
rectangle (6, 0, 5, 1) has origin x greater than its width, yet the clamp
does not fire on the first region (first width -50, not 5 - 6 = -1) and
the second emitted rectangle has strictly positive width 48. -/
theorem claim_C10_counterexample :
    validateRatio "-10:11" = .ok () ∧
    customHLayout "-10:11" (some ⟨6, 0, 5, 1⟩) 0 0 =
      .ok [⟨6, 0, -50, 1⟩, ⟨-43, 0, 48, 1⟩] ∧
    ((5 : Int) < 6) ∧ ((0 : Int) < 48) ∧ ((-50 : Int) ≠ 5 - 6) :=
  ⟨rfl, rfl, by decide, by decide, by decide⟩

/-- Claim C10 (amended): for positive weights and a bounding rectangle
with 0 ≤ width < origin x, the clamp (which compares the running cursor
against the width, not against the right edge) fires on the very first
region, the first rectangle is (x, y, w - x, h), and every emitted width
is strictly negative; symmetrically for `customVLayout` when
0 ≤ height < origin y. -/
theorem claim_C10_amended :
    ∀ (ratio : String) (d : IntRect) (COLS LINES : Int)
      (boxes : List IntRect) (nums : List Int),
      extractNumsFromString ratio = .ok nums →
      (∀ n ∈ nums, 0 < n) →
      (customHLayout ratio (some d) COLS LINES = .ok boxes →
        0 ≤ d.w → d.w < d.x →
        (∀ b ∈ boxes, b.w < 0) ∧
        (∀ b bs, boxes = b :: bs → b = ⟨d.x, d.y, d.w - d.x, d.h⟩)) ∧
      (customVLayout ratio (some d) COLS LINES = .ok boxes →
        0 ≤ d.h → d.h < d.y →
        (∀ b ∈ boxes, b.h < 0) ∧
        (∀ b bs, boxes = b :: bs → b = ⟨d.x, d.y, d.w, d.h - d.y⟩)) := by
  intro ratio d COLS LINES boxes nums he hpos
  have hbase : 0 ≤ nums.sum := List.sum_nonneg fun x hx => (hpos x hx).le
  constructor
  · intro h hw hxw
    cases hv : validateRatio ratio with
    | error e =>
      rw [customHLayout_val_err (some d) COLS LINES hv] at h
      exact absurd h (by simp)
    | ok v =>
      cases v
      have hok := customHLayout_eq_ok (some d) COLS LINES hv he
      rw [hok] at h
      injection h with h1
      have hboxes : boxes = hRec nums.sum d.w d.h d.y (d.x - 1) nums := by
        rw [← h1, calculateHBoxes_eq_hRec]; rfl
      constructor
      · intro b hb
        rw [hboxes] at hb
        exact hRec_neg _ _ _ _ hbase hw nums _ hpos (by omega) b hb
      · intro b bs hbs
        rw [hboxes] at hbs
        cases nums with
        | nil => exact absurd hbs (by simp [hRec])
        | cons n ns =>
          rw [hRec] at hbs
          have hc0 : 0 ≤ Int.tdiv (n * d.w) (n :: ns).sum :=
            Int.tdiv_nonneg (mul_nonneg (hpos n (by simp)).le hw) hbase
          have hcl : d.x - 1 + 1 + Int.tdiv (n * d.w) (n :: ns).sum ≥ d.w := by
            omega
          rw [if_pos hcl] at hbs
          injection hbs with hb1 hb2
          rw [← hb1]
          simp only [IntRect.mk.injEq]
          exact ⟨by ring, trivial, by ring, trivial⟩
  · intro h hh hyh
    cases hv : validateRatio ratio with
    | error e =>
      rw [customVLayout_val_err (some d) COLS LINES hv] at h
      exact absurd h (by simp)
    | ok v =>
      cases v
      have hok := customVLayout_eq_ok (some d) COLS LINES hv he
      rw [hok] at h
      injection h with h1
      have hboxes : boxes = vRec nums.sum d.w d.h d.x (d.y - 1) nums := by
        rw [← h1, calculateVBoxes_eq_vRec]; rfl
      constructor
      · intro b hb
        rw [hboxes] at hb
        exact vRec_neg _ _ _ _ hbase hh nums _ hpos (by omega) b hb
      · intro b bs hbs
        rw [hboxes] at hbs
        cases nums with
        | nil => exact absurd hbs (by simp [vRec])
        | cons n ns =>
          rw [vRec] at hbs
          have hr0 : 0 ≤ Int.tdiv (n * d.h) (n :: ns).sum :=
            Int.tdiv_nonneg (mul_nonneg (hpos n (by simp)).le hh) hbase
          have hcl : d.y - 1 + 1 + Int.tdiv (n * d.h) (n :: ns).sum ≥ d.h := by
            omega
          rw [if_pos hcl] at hbs
          injection hbs with hb1 hb2
          rw [← hb1]
          simp only [IntRect.mk.injEq]
          exact ⟨trivial, by ring, trivial, by ring⟩

/-- Witness for the amended claim C10 at ratio "1:1" on the rectangle
(5, 7, 3, 3). -/
theorem claim_C10_witness :
    ((∀ b ∈ [(⟨5, 7, -2, 3⟩ : IntRect), ⟨4, 7, -1, 3⟩], b.w < 0) ∧
      (∀ b bs, ([(⟨5, 7, -2, 3⟩ : IntRect), ⟨4, 7, -1, 3⟩] = b :: bs) →
        b = ⟨5, 7, 3 - 5, 3⟩)) ∧
    ((∀ b ∈ [(⟨5, 7, 3, -4⟩ : IntRect), ⟨5, 4, 3, -1⟩], b.h < 0) ∧
      (∀ b bs, ([(⟨5, 7, 3, -4⟩ : IntRect), ⟨5, 4, 3, -1⟩] = b :: bs) →
        b = ⟨5, 7, 3, 3 - 7⟩)) :=
  ⟨(claim_C10_amended "1:1" ⟨5, 7, 3, 3⟩ 0 0
      [⟨5, 7, -2, 3⟩, ⟨4, 7, -1, 3⟩] [1, 1] rfl (by decide)).1
      rfl (by decide) (by decide),
    (claim_C10_amended "1:1" ⟨5, 7, 3, 3⟩ 0 0
      [⟨5, 7, 3, -4⟩, ⟨5, 4, 3, -1⟩] [1, 1] rfl (by decide)).2
      rfl (by decide) (by decide)⟩

lemma c9_hsplit (x y w h : Int) (hx : 0 ≤ x) (hw : 1 ≤ w) :
    ∃ b0 b1 : IntRect, hRec 2 w h y (x - 1) [1, 1] = [b0, b1] ∧
      b0.y = y ∧ b0.h = h ∧ b1.y = y ∧ b1.h = h ∧
      b0.x ≤ x + w ∧ b0.x + b0.w ≤ x + w ∧
      b1.x ≤ x + w ∧ b1.x + b1.w ≤ x + w := by
  have hq : Int.tdiv (1 * w) 2 = w / 2 := by
    rw [one_mul]; exact Int.tdiv_eq_ediv (by omega) (by omega)
  refine ⟨_, _, rfl, rfl, rfl, rfl, rfl, ?_, ?_, ?_, ?_⟩ <;>
    · dsimp only [hRec]
      try simp only [hq]
      first
      | (split_ifs <;> omega)
      | omega

lemma c9_vthirds (X Y W H : Int) (hy : 0 ≤ Y) (hh : H = 2 ∨ 4 ≤ H) :
    ∃ v0 v1 v2 : IntRect, vRec 3 W H X (Y - 1) [1, 1, 1] = [v0, v1, v2] ∧
      v0.x = X ∧ v0.w = W ∧ v1.x = X ∧ v1.w = W ∧ v2.x = X ∧ v2.w = W ∧
      v0.y ≤ Y + H ∧ v0.y + v0.h ≤ Y + H ∧
      v1.y ≤ Y + H ∧ v1.y + v1.h ≤ Y + H ∧
      v2.y ≤ Y + H ∧ v2.y + v2.h ≤ Y + H := by
  have hq : Int.tdiv (1 * H) 3 = H / 3 := by
    rw [one_mul]; exact Int.tdiv_eq_ediv (by omega) (by omega)
  refine ⟨_, _, _, rfl, rfl, rfl, rfl, rfl, rfl, rfl,
    ?_, ?_, ?_, ?_, ?_, ?_⟩ <;>
    · dsimp only [vRec]
      try simp only [hq]
      first
      | (split_ifs <;> omega)
      | omega


/-- Claim C9, counterexample: on R = (0, 0, 10, 1), HSplit then VThirds of
the second rectangle emits a sub-rectangle with origin y = 2, which
exceeds R's bottom edge 0 + 1 = 1. -/
theorem claim_C9_counterexample :
    HSplit (some ⟨0, 0, 10, 1⟩) 0 0 = .ok [⟨0, 0, 5, 1⟩, ⟨6, 0, 4, 1⟩] ∧
    VThirds (some ⟨6, 0, 4, 1⟩) 0 0 =
      .ok [⟨6, 0, 4, 0⟩, ⟨6, 1, 4, 0⟩, ⟨6, 2, 4, -1⟩] ∧
    ¬ ((2 : Int) ≤ 0 + 1) := ⟨rfl, rfl, by decide⟩

/-- Claim C9 (amended): for every rectangle R with nonnegative origin,
width at least 1, and height 2 or at least 4 (heights 0, 1 and 3 can
overflow the bottom edge by one cell), partitioning R with HSplit and the
second returned rectangle with VThirds produces rectangles fully
contained within R's bounds: no x-coordinate exceeds R.x + R.w and no
y-coordinate exceeds R.y + R.h. -/
theorem claim_C9_amended :
    ∀ (R : IntRect) (COLS LINES : Int),
      0 ≤ R.x → 0 ≤ R.y → 1 ≤ R.w → (R.h = 2 ∨ 4 ≤ R.h) →
      ∃ b0 b1 v0 v1 v2 : IntRect,
        HSplit (some R) COLS LINES = .ok [b0, b1] ∧
        VThirds (some b1) COLS LINES = .ok [v0, v1, v2] ∧
        ∀ b ∈ [b0, b1, v0, v1, v2],
          b.x ≤ R.x + R.w ∧ b.x + b.w ≤ R.x + R.w ∧
          b.y ≤ R.y + R.h ∧ b.y + b.h ≤ R.y + R.h := by
  intro R COLS LINES hx hy hw hh
  have hH : 0 ≤ R.h := by rcases hh with h | h <;> omega
  obtain ⟨b0, b1, heq, hb0y, hb0h, hb1y, hb1h, h1, h2, h3, h4⟩ :=
    c9_hsplit R.x R.y R.w R.h hx hw
  have hsplit : HSplit (some R) COLS LINES = .ok [b0, b1] := by
    have hok : HSplit (some R) COLS LINES =
        .ok (calculateHBoxes [1, 1] (some R) COLS LINES) :=
      customHLayout_eq_ok (some R) COLS LINES
        (rfl : validateRatio "1:1" = .ok ())
        (rfl : extractNumsFromString "1:1" = .ok [1, 1])
    have hcalc : calculateHBoxes [1, 1] (some R) COLS LINES =
        hRec 2 R.w R.h R.y (R.x - 1) [1, 1] := by
      rw [calculateHBoxes_eq_hRec]; rfl
    rw [hok, hcalc, heq]
  obtain ⟨v0, v1, v2, heqv, hv0x, hv0w, hv1x, hv1w, hv2x, hv2w,
    hy0, hy0b, hy1, hy1b, hy2, hy2b⟩ :=
    c9_vthirds b1.x R.y b1.w R.h hy hh
  have hvthirds : VThirds (some b1) COLS LINES = .ok [v0, v1, v2] := by
    have hok : VThirds (some b1) COLS LINES =
        .ok (calculateVBoxes [1, 1, 1] (some b1) COLS LINES) :=
      customVLayout_eq_ok (some b1) COLS LINES
        (rfl : validateRatio "1:1:1" = .ok ())
        (rfl : extractNumsFromString "1:1:1" = .ok [1, 1, 1])
    have hcalc : calculateVBoxes [1, 1, 1] (some b1) COLS LINES =
        vRec 3 b1.w b1.h b1.x (b1.y - 1) [1, 1, 1] := by
      rw [calculateVBoxes_eq_vRec]; rfl
    rw [hok, hcalc, hb1y, hb1h, heqv]
  refine ⟨b0, b1, v0, v1, v2, hsplit, hvthirds, ?_⟩
  intro b hb
  simp only [List.mem_cons, List.not_mem_nil, or_false] at hb
  rcases hb with rfl | rfl | rfl | rfl | rfl
  · exact ⟨h1, h2, by omega, by omega⟩
  · exact ⟨h3, h4, by omega, by omega⟩
  · exact ⟨by omega, by omega, hy0, hy0b⟩
  · exact ⟨by omega, by omega, hy1, hy1b⟩
  · exact ⟨by omega, by omega, hy2, hy2b⟩

/-- Witness for the amended claim C9 at R = (0, 0, 99, 29). -/
theorem claim_C9_witness :
    ∃ b0 b1 v0 v1 v2 : IntRect,
      HSplit (some ⟨0, 0, 99, 29⟩) 0 0 = .ok [b0, b1] ∧
      VThirds (some b1) 0 0 = .ok [v0, v1, v2] ∧
      ∀ b ∈ [b0, b1, v0, v1, v2],
        b.x ≤ 0 + 99 ∧ b.x + b.w ≤ 0 + 99 ∧
        b.y ≤ 0 + 29 ∧ b.y + b.h ≤ 0 + 29 :=
  claim_C9_amended ⟨0, 0, 99, 29⟩ 0 0
    (by decide) (by decide) (by decide) (by decide)

end Vexes
